import Mathlib

/-!
# Verification of the CloaksDB disk-resident B-tree

A shallow embedding of the CloaksDB sources (`src/header.rs`, `src/slot.rs`,
`src/free_space.rs`, `src/slotted_page.rs`, `src/page_manager.rs`,
`src/btree.rs`) in Lean 4, together with theorems settling the behavioural
claims about the slotted page, the page manager and the B-tree.

Modelling conventions:
* Machine integers (`u8`, `u16`, `u64`, `usize`) are modelled as `Nat`.
  Rust subtraction on unsigned types panics on underflow (debug profile);
  the embedding uses truncated `Nat` subtraction and the theorems carry
  hypotheses ruling underflow out where it matters.
* The backing file is a `List UInt8`; page buffers are `List UInt8`.
* Fallible Rust code returning `Result<_, BTreeError>` is modelled with
  `Except BTreeErr _`.  A Rust panic (out-of-bounds index, `unwrap`) is
  modelled by the distinguished error value `BTreeErr.panicked`, so that a
  panic is observably different from a returned error.
* The generic parameters `K`/`V` are instantiated the way the test-suite and
  the demo instantiate them: keys are 64-bit integers (`bincode`: 8 bytes
  little-endian), values are byte strings (`bincode` for `String`/`Vec<u8>`:
  a little-endian `u64` length prefix followed by the bytes).  Keys are
  modelled as `Nat`, values as `List UInt8`.
-/

deriving instance DecidableEq for Except

namespace CloaksDB

/-! ## Little-endian byte encoding -/

/-- `w`-byte little-endian encoding of `n` (as produced by `to_le_bytes`,
truncating to `w` bytes). -/
def encLE : Nat → Nat → List UInt8
  | 0, _ => []
  | w + 1, n => UInt8.ofNat (n % 256) :: encLE w (n / 256)

/-- Little-endian decoding of a byte list (`from_le_bytes`). -/
def decLE : List UInt8 → Nat
  | [] => 0
  | b :: bs => b.toNat + 256 * decLE bs

/-! ## Raw buffer access -/

/-- `buffer[off .. off+len]` (reading past the end yields a short list, as a
Rust slice of the valid prefix would panic; theorems always stay in bounds). -/
def readBytes (buffer : List UInt8) (off len : Nat) : List UInt8 :=
  (buffer.drop off).take len

/-- `buffer[off .. off+bytes.len()].copy_from_slice(bytes)`.  Total function;
the call sites only use it with `off + bytes.length ≤ buffer.length`, matching
the Rust in-bounds requirement. -/
def writeBytes (buffer : List UInt8) (off : Nat) (bytes : List UInt8) : List UInt8 :=
  buffer.take off ++ bytes ++ buffer.drop (off + bytes.length)

/-! ## Error taxonomy (`src/error.rs`, `src/header.rs`, `src/page_manager.rs`)

`BTreeError` in `src/error.rs` is a sum of the I/O, serialization, header,
page-manager and slotted-page error kinds.  The embedding flattens the nested
enums into one type (the nesting plays no behavioural role) and adds
`panicked` to give Rust panics an observable value. -/

inductive BTreeErr where
  | keyNotFound (key : String)
  | pageOverflow (page_id : Nat)
  | invalidBufferSize (expected got : Nat)
  | invalidMagicNumber (n : Nat)
  | invalidNodeType (b : Nat)
  | headerNotWritten
  | ioInvalidData
  | panicked
  deriving DecidableEq, Repr

/-! ## Node type (`src/types.rs`) -/

inductive NodeType where
  | INTERNAL
  | LEAF
  deriving DecidableEq, Repr

/-- The `node_type as u8` cast: `INTERNAL = 0`, `LEAF = 1`. -/
def NodeType.toByte : NodeType → UInt8
  | .INTERNAL => 0
  | .LEAF => 1

/-- `impl From<u8> for NodeType`; the wildcard arm panics, modelled as `none`. -/
def NodeType.fromByte (b : UInt8) : Option NodeType :=
  if b = 0 then some .INTERNAL else if b = 1 then some .LEAF else none

/-! ## Slot (`src/slot.rs`) -/

structure Slot where
  offset : Nat
  key_length : Nat
  value_length : Nat
  deriving DecidableEq, Repr, Inhabited

namespace Slot

def SIZE : Nat := 6

def total_length (s : Slot) : Nat := s.key_length + s.value_length

def serialize (s : Slot) : List UInt8 :=
  encLE 2 s.offset ++ encLE 2 s.key_length ++ encLE 2 s.value_length

def deserialize (buffer : List UInt8) : Slot :=
  { offset := decLE (readBytes buffer 0 2)
    key_length := decLE (readBytes buffer 2 2)
    value_length := decLE (readBytes buffer 4 2) }

end Slot

/-! ## Free-space region (`src/free_space.rs`) -/

structure FreeSpaceRegion where
  offset : Nat
  length : Nat
  deriving DecidableEq, Repr, Inhabited

namespace FreeSpaceRegion

def SIZE : Nat := 4

def serialize (r : FreeSpaceRegion) : List UInt8 :=
  encLE 2 r.offset ++ encLE 2 r.length

def deserialize (buffer : List UInt8) : FreeSpaceRegion :=
  { offset := decLE (readBytes buffer 0 2)
    length := decLE (readBytes buffer 2 2) }

end FreeSpaceRegion

/-! ## Header (`src/header.rs`) -/

structure Header where
  magic_number : Nat
  version : Nat
  page_size : Nat
  root_page_id : Nat
  page_count : Nat
  deriving DecidableEq, Repr

namespace Header

def SIZE : Nat := 28

def new (magic_number version page_size root_page_id page_count : Nat) : Header :=
  { magic_number, version, page_size, root_page_id, page_count }

def pages_empty (h : Header) : Bool := h.page_count = 0

def add_page (h : Header) : Header := { h with page_count := h.page_count + 1 }

def add_root_page (h : Header) (root_page_id : Nat) : Header :=
  add_page { h with root_page_id := root_page_id }

def serialize (h : Header) : List UInt8 :=
  encLE 2 h.magic_number ++ encLE 2 h.version ++ encLE 8 h.page_size ++
    encLE 8 h.root_page_id ++ encLE 8 h.page_count

def deserialize (buffer : List UInt8) : Except BTreeErr Header :=
  if buffer.length < SIZE then
    .error (.invalidBufferSize SIZE buffer.length)
  else
    let magic_number := decLE (readBytes buffer 0 2)
    if magic_number = 0 then
      .error (.invalidMagicNumber magic_number)
    else
      .ok { magic_number
            version := decLE (readBytes buffer 2 2)
            page_size := decLE (readBytes buffer 4 8)
            root_page_id := decLE (readBytes buffer 12 8)
            page_count := decLE (readBytes buffer 20 8) }

end Header

/-! ## bincode instantiation for keys and values

Keys are 64-bit integers: `bincode::serialize` yields the 8-byte
little-endian representation.  Values are byte strings: `bincode` writes a
`u64` little-endian length prefix followed by the raw bytes. -/

def encodeKey (k : Nat) : List UInt8 := encLE 8 k

def decodeKey (b : List UInt8) : Nat := decLE b

def encodeVal (v : List UInt8) : List UInt8 := encLE 8 v.length ++ v

def decodeVal (b : List UInt8) : List UInt8 := (b.drop 8).take (decLE (b.take 8))

/-! ## Slotted page (`src/slotted_page.rs`)

`fragmentation_ratio`/`should_compact` use `f32` and are advisory only; no
claim mentions them, so they are not embedded (floating point).  `Vec::insert`
is modelled by `vecInsertAt` (the Rust call panics when `pos > len`; the
embedding guards those call sites explicitly). -/

def vecInsertAt (l : List α) (pos : Nat) (a : α) : List α :=
  l.take pos ++ a :: l.drop pos

/-- One step of the `retain_mut` pass of `add_to_free_list`: a hole adjacent
to the moving region (on either side) is absorbed into it and dropped from
the list; any other hole is retained. -/
def atflStep (acc : List FreeSpaceRegion × FreeSpaceRegion)
    (existing : FreeSpaceRegion) : List FreeSpaceRegion × FreeSpaceRegion :=
  let (kept, region) := acc
  if existing.offset + existing.length = region.offset then
    (kept, ⟨existing.offset, region.length + existing.length⟩)
  else if region.offset + region.length = existing.offset then
    (kept, ⟨region.offset, region.length + existing.length⟩)
  else (kept ++ [existing], region)

structure SlottedPage where
  page_id : Nat
  node_type : NodeType
  num_keys : Nat
  free_space_end : Nat
  free_list : List FreeSpaceRegion
  total_free : Nat
  slots : List Slot
  pointers : List Nat
  data : List UInt8
  page_size : Nat
  deriving DecidableEq, Repr

namespace SlottedPage

def HEADER_SIZE : Nat := 17

/-- `SlottedPage::new`.  The `as u16` casts truncate modulo `2^16`; the u16
subtraction `page_size as u16 - HEADER_SIZE as u16` panics on underflow in
Rust (debug) and is modelled with truncated `Nat` subtraction. -/
def new (page_id : Nat) (node_type : NodeType) (page_size : Nat) : SlottedPage :=
  { page_id
    node_type
    num_keys := 0
    free_space_end := page_size % 2 ^ 16
    free_list := []
    total_free := page_size % 2 ^ 16 - HEADER_SIZE
    slots := []
    pointers := []
    data := List.replicate page_size 0
    page_size }

def get_free_space (p : SlottedPage) : Nat :=
  let used_at_start := HEADER_SIZE + p.slots.length * Slot.SIZE + p.pointers.length * 8
  let used_at_end := p.page_size - p.free_space_end
  p.page_size - (used_at_start + used_at_end)

def can_insert (p : SlottedPage) (key_len value_len : Nat) : Bool :=
  let needed := Slot.SIZE + key_len + value_len
  let needed :=
    match p.node_type with
    | .LEAF => needed
    | .INTERNAL => needed + 8
  needed ≤ p.get_free_space

def header_region_end (p : SlottedPage) : Nat :=
  let pointer_count :=
    match p.node_type with
    | .LEAF => p.pointers.length
    | .INTERNAL => p.pointers.length + 1
  HEADER_SIZE + p.slots.length * Slot.SIZE + pointer_count * 8 +
    p.free_list.length * FreeSpaceRegion.SIZE

/-- `SlottedPage::find_space_for`: perfect fit, then best fit (Rust
`min_by_key` returns the first of equally minimal elements), then the
contiguous region. -/
def find_space_for (p : SlottedPage) (length : Nat) : Option (Nat × Option Nat) :=
  match p.free_list.enum.find? (fun ir => ir.2.length = length) with
  | some ir => some (ir.2.offset, some ir.1)
  | none =>
    let best := (p.free_list.enum.filter (fun ir => length ≤ ir.2.length)).foldl
      (fun best ir =>
        match best with
        | none => some ir
        | some b => if ir.2.length - length < b.2.length - length then some ir else best)
      none
    match best with
    | some ir => some (ir.2.offset, some ir.1)
    | none =>
      if length ≤ p.free_space_end then
        let o := p.free_space_end - length
        if p.header_region_end + Slot.SIZE ≤ o then some (o, none) else none
      else none

/-- `SlottedPage::insert`.  The two `copy_from_slice` calls lay the key and
the value down contiguously at the chosen offset. -/
def insert (p : SlottedPage) (pos : Nat) (key : Nat) (value : List UInt8) :
    Except BTreeErr SlottedPage :=
  let key_bytes := encodeKey key
  let value_bytes := encodeVal value
  let total_len := key_bytes.length + value_bytes.length
  match p.find_space_for total_len with
  | none => .error (.pageOverflow p.page_id)
  | some (offset, free_list_idx) =>
    let p := { p with data := writeBytes p.data offset (key_bytes ++ value_bytes) }
    let p :=
      match free_list_idx with
      | some idx =>
        let region := p.free_list.getD idx default
        let remaining := region.length - total_len
        if remaining > 0 then
          { p with free_list :=
              p.free_list.set idx ⟨offset + total_len, remaining⟩ }
        else
          { p with free_list := p.free_list.eraseIdx idx }
      | none => { p with free_space_end := offset }
    let p := { p with total_free := p.total_free - total_len }
    if pos > p.slots.length then .error .panicked
    else
      .ok { p with
            slots := vecInsertAt p.slots pos
              ⟨offset, key_bytes.length, value_bytes.length⟩
            num_keys := p.num_keys + 1 }

/-- `SlottedPage::add_to_free_list`: the `retain_mut` pass merges any hole
adjacent to `region` (on either side) into `region`; afterwards the region is
either swallowed into the contiguous area (when its end equals
`free_space_end`) or inserted into the offset-sorted free list. -/
def add_to_free_list (p : SlottedPage) (region : FreeSpaceRegion) : SlottedPage :=
  let res := p.free_list.foldl atflStep ([], region)
  let kept := res.1
  let region := res.2
  if region.offset + region.length = p.free_space_end then
    { p with free_list := kept, free_space_end := region.offset }
  else
    let insert_pos := (kept.findIdx? (fun r => region.offset < r.offset)).getD kept.length
    { p with free_list := vecInsertAt kept insert_pos region }

/-- One step of the loop at the end of `split` that returns a dropped slot's
byte range to the left page's free list and bumps `total_free`. -/
def splitFreeStep (p : SlottedPage) (slot : Slot) : SlottedPage :=
  let q := p.add_to_free_list ⟨slot.offset, slot.key_length + slot.value_length⟩
  { q with total_free := q.total_free + (slot.key_length + slot.value_length) }

/-- `SlottedPage::delete`.  The bounds guard only rejects `pos > len`;
`slots.remove(pos)` then panics when `pos = len`. -/
def delete (p : SlottedPage) (pos : Nat) : Except BTreeErr SlottedPage :=
  if pos > p.slots.length then .error (.keyNotFound "")
  else if h : pos < p.slots.length then
    let slot := p.slots[pos]
    let freed_length := slot.key_length + slot.value_length
    let p := { p with
               slots := p.slots.eraseIdx pos
               num_keys := p.num_keys - 1
               total_free := p.total_free + freed_length }
    .ok (p.add_to_free_list ⟨slot.offset, freed_length⟩)
  else .error .panicked

/-- `SlottedPage::update`.  Indexing `self.slots[pos]` panics when out of
bounds.  A new value no longer than the old one is written in place and the
slack is returned to the free list; otherwise the entry is deleted and
reinserted, propagating any `PageOverflow` from the reinsert. -/
def update (p : SlottedPage) (pos : Nat) (key : Nat) (value : List UInt8) :
    Except BTreeErr SlottedPage :=
  if h : pos < p.slots.length then
    let key_bytes := encodeKey key
    let value_bytes := encodeVal value
    let total_len := key_bytes.length + value_bytes.length
    let slot := p.slots[pos]
    let offset := slot.offset
    let old_value_bytes_len := slot.value_length
    if value_bytes.length ≤ old_value_bytes_len then
      let p := { p with
                 data := writeBytes p.data offset (key_bytes ++ value_bytes)
                 slots := p.slots.set pos
                   { slot with key_length := key_bytes.length
                               value_length := value_bytes.length } }
      let leftover := old_value_bytes_len - value_bytes.length
      if leftover > 0 then
        let q := p.add_to_free_list ⟨offset + total_len, leftover⟩
        .ok { q with total_free := q.total_free + leftover }
      else .ok p
    else do
      let p ← p.delete pos
      p.insert pos key value
  else .error .panicked

def read_key (p : SlottedPage) (index : Nat) : Except BTreeErr Nat :=
  if h : index < p.slots.length then
    let slot := p.slots[index]
    .ok (decodeKey (readBytes p.data slot.offset slot.key_length))
  else .error .panicked

def read_value (p : SlottedPage) (index : Nat) : Except BTreeErr (List UInt8) :=
  if h : index < p.slots.length then
    let slot := p.slots[index]
    .ok (decodeVal (readBytes p.data (slot.offset + slot.key_length) slot.value_length))
  else .error .panicked

def read_key_value (p : SlottedPage) (index : Nat) :
    Except BTreeErr (Nat × List UInt8) := do
  let k ← p.read_key index
  let v ← p.read_value index
  .ok (k, v)

/-- The `while left < right` binary-search loop in `find_key_position`
(comparisons deserialize the probed key from the data region).  The loop
shrinks `right - left` by at least one per iteration, so running it with
`right - left` as structural fuel computes the same fixed point (structural
recursion keeps the definition kernel-reducible). -/
def fkpAux (p : SlottedPage) (key : Nat) : Nat → Nat → Nat → Nat
  | 0, left, _ => left
  | fuel + 1, left, right =>
    if left < right then
      let mid := left + (right - left) / 2
      let slot := p.slots.getD mid default
      let mid_key := decodeKey (readBytes p.data slot.offset slot.key_length)
      if key ≤ mid_key then fkpAux p key fuel left mid
      else fkpAux p key fuel (mid + 1) right
    else left

def find_key_position (p : SlottedPage) (key : Nat) : Nat :=
  fkpAux p key p.slots.length 0 p.slots.length

def find_exact_key (p : SlottedPage) (key : Nat) : Option Nat :=
  let pos := p.find_key_position key
  if h : pos < p.slots.length then
    let slot := p.slots[pos]
    if decodeKey (readBytes p.data slot.offset slot.key_length) = key then some pos
    else none
  else none

def get_pointer (p : SlottedPage) (key : Nat) : Except BTreeErr Nat :=
  let pos := p.find_key_position key
  if h : pos < p.pointers.length then .ok p.pointers[pos] else .error .panicked

/-- `SlottedPage::split`.  Returns the promoted median entry, the mutated
left page (`self`) and the freshly built right page. -/
def split (p : SlottedPage) (new_page_id : Nat) :
    Except BTreeErr (Nat × List UInt8 × SlottedPage × SlottedPage) := do
  let mid_index := p.num_keys / 2
  let mid_key ← p.read_key mid_index
  let mid_value ← p.read_value mid_index
  let right0 := SlottedPage.new new_page_id p.node_type p.page_size
  let right ← (List.range' (mid_index + 1) (p.slots.length - (mid_index + 1))).foldlM
    (fun (right : SlottedPage) i => do
      let k ← p.read_key i
      let v ← p.read_value i
      right.insert right.slots.length k v)
    right0
  let (leftPointers, right) :=
    if p.node_type = .INTERNAL ∧ mid_index + 1 < p.pointers.length then
      (p.pointers.take (mid_index + 1),
       { right with pointers := p.pointers.drop (mid_index + 1) })
    else (p.pointers, right)
  let removed_slots := p.slots.drop mid_index
  let p := { p with
             pointers := leftPointers
             slots := p.slots.take mid_index
             num_keys := mid_index }
  let p := removed_slots.foldl splitFreeStep p
  .ok (mid_key, mid_value, p, right)

/-- `SlottedPage::compact`.  Note: the reset of `total_free` subtracts
`Header::SIZE` (28, the file-header size), not the 17-byte page-header
size. -/
def compactStep (p : SlottedPage) (kv : Nat × List UInt8) : SlottedPage :=
  let key_bytes := encodeKey kv.1
  let value_bytes := encodeVal kv.2
  let total_len := key_bytes.length + value_bytes.length
  let new_offset := p.free_space_end - total_len
  let p := { p with
             data := writeBytes p.data new_offset (key_bytes ++ value_bytes)
             free_space_end := new_offset
             total_free := p.total_free - total_len }
  { p with slots := p.slots ++
      [⟨p.free_space_end, key_bytes.length, value_bytes.length⟩] }

def compact (p : SlottedPage) : Except BTreeErr SlottedPage := do
  let pairs ← (List.range p.slots.length).mapM (fun idx => p.read_key_value idx)
  let p := { p with free_space_end := p.page_size % 2 ^ 16 }
  let p := { p with total_free := p.free_space_end - Header.SIZE, slots := [] }
  let p := pairs.foldl compactStep p
  .ok { p with free_list := [] }

def read_keys (p : SlottedPage) : Except BTreeErr (List Nat) :=
  (List.range p.num_keys).mapM (fun idx => p.read_key idx)

/-- The header, slot-array, pointer-array and free-list bytes that
`SlottedPage::serialize` lays down sequentially from offset 0. -/
def serPrefix (p : SlottedPage) : List UInt8 :=
  encLE 8 p.page_id ++ [p.node_type.toByte] ++ encLE 2 p.num_keys ++
    encLE 2 p.free_space_end ++ encLE 2 p.free_list.length ++ encLE 2 p.total_free ++
    (p.slots.map Slot.serialize).flatten ++ (p.pointers.map (encLE 8)).flatten ++
    (p.free_list.map FreeSpaceRegion.serialize).flatten

/-- `SlottedPage::serialize`: the sequential writes into a zeroed
`page_size` buffer amount to the prefix bytes, zero padding up to
`free_space_end`, then the data-region bytes `data[free_space_end..]`. -/
def serialize (p : SlottedPage) : Except BTreeErr (List UInt8) :=
  let pre := serPrefix p
  let offset := pre.length
  let data_start := p.free_space_end
  if data_start < offset then .error (.invalidBufferSize offset data_start)
  else if p.data.length ≠ p.page_size then
    .error (.invalidBufferSize p.page_size p.data.length)
  else
    .ok ((pre ++ List.replicate (p.page_size - offset) 0).take data_start ++
      p.data.drop data_start)

/-- `SlottedPage::deserialize`.  The `NodeType::from(u8)` conversion panics on
a byte other than 0/1, modelled as `none`; `num_keys` slots are read, then
`num_keys + 1` pointers for INTERNAL pages, then `free_list_count` holes, and
the whole raw buffer is retained as the data array. -/
def deserialize (buffer : List UInt8) (page_size : Nat) : Option SlottedPage :=
  match NodeType.fromByte (buffer.getD 8 0) with
  | none => none
  | some node_type =>
    let num_keys := decLE (readBytes buffer 9 2)
    let num_pointers :=
      match node_type with
      | .LEAF => 0
      | .INTERNAL => num_keys + 1
    let afterSlots := 17 + 6 * num_keys
    let afterPtrs := afterSlots + 8 * num_pointers
    let free_list_count := decLE (readBytes buffer 13 2)
    some
      { page_id := decLE (readBytes buffer 0 8)
        node_type
        num_keys
        free_space_end := decLE (readBytes buffer 11 2)
        free_list := (List.range free_list_count).map
          (fun i => FreeSpaceRegion.deserialize (readBytes buffer (afterPtrs + 4 * i) 4))
        total_free := decLE (readBytes buffer 15 2)
        slots := (List.range num_keys).map
          (fun i => Slot.deserialize (readBytes buffer (17 + 6 * i) 6))
        pointers := (List.range num_pointers).map
          (fun i => decLE (readBytes buffer (afterSlots + 8 * i) 8))
        data := buffer
        page_size }

end SlottedPage

/-! ## Page manager (`src/page_manager.rs`) -/

structure PageManager where
  file : List UInt8
  page_size : Nat
  header_size : Nat
  deriving DecidableEq, Repr

namespace PageManager

/-- `PageManager::new`: when the file is shorter than `header_size`, the
constructor seeks to the end and appends `header_size` zero bytes. -/
def new (file : List UInt8) (page_size header_size : Nat) : PageManager :=
  let file :=
    if file.length < header_size then file ++ List.replicate header_size 0 else file
  { file, page_size, header_size }

def from_pageid (pm : PageManager) (page_id : Nat) : Nat :=
  page_id * pm.page_size + pm.header_size

def to_pageid (pm : PageManager) (byte_offset : Nat) : Nat :=
  (byte_offset - pm.header_size) / pm.page_size

/-- `PageManager::allocate_page`: seeks to the end of the file, guards
against a missing header using the literal `Header::SIZE`, and appends
`page_size` zero bytes. -/
def allocate_page (pm : PageManager) : Except BTreeErr (Nat × PageManager) :=
  let byte_offset := pm.file.length
  if byte_offset < Header.SIZE then .error .headerNotWritten
  else
    .ok (pm.to_pageid byte_offset,
      { pm with file := pm.file ++ List.replicate pm.page_size 0 })

def write_header (pm : PageManager) (data : List UInt8) : Except BTreeErr PageManager :=
  if data.length > pm.header_size then .error .ioInvalidData
  else .ok { pm with file := writeBytes pm.file 0 data }

/-- `PageManager::read_header`: a read past end-of-file leaves the zeroed
remainder of the buffer untouched. -/
def read_header (pm : PageManager) : List UInt8 :=
  let got := readBytes pm.file 0 pm.header_size
  got ++ List.replicate (pm.header_size - got.length) 0

/-- `PageManager::write_page` (call sites always write to a previously
allocated page, so the seek target is inside the file). -/
def write_page (pm : PageManager) (page_id : Nat) (data : List UInt8) : PageManager :=
  { pm with file := writeBytes pm.file (pm.from_pageid page_id) data }

/-- `PageManager::read_page` (the returned byte count is ignored by the only
caller; a short read leaves the zeroed remainder in the buffer). -/
def read_page (pm : PageManager) (page_id : Nat) : List UInt8 :=
  let got := readBytes pm.file (pm.from_pageid page_id) pm.page_size
  got ++ List.replicate (pm.page_size - got.length) 0

end PageManager

/-! ## B-tree (`src/btree.rs`) -/

/-- Modelled from the spec: `src/constants.rs` (`crate::constants::VERSION`)
is not among the provided sources; §6 of the spec fixes the format version
at 0. -/
def VERSION : Nat := 0

/-- `.unwrap()` on a `Result`: an error becomes a panic. -/
def unwrapPanic : Except BTreeErr α → Except BTreeErr α
  | .ok a => .ok a
  | .error _ => .error .panicked

structure BTree where
  header : Header
  page_manager : PageManager
  deriving DecidableEq, Repr

namespace BTree

def read_header (pm : PageManager) : Except BTreeErr Header :=
  Header.deserialize pm.read_header

def write_header (header : Header) (pm : PageManager) : Except BTreeErr PageManager :=
  pm.write_header header.serialize

def write_page (page : SlottedPage) (pm : PageManager) : Except BTreeErr PageManager := do
  let data ← page.serialize
  .ok (pm.write_page page.page_id data)

def read_page (bt : BTree) (page_id : Nat) : Except BTreeErr SlottedPage :=
  let buffer := bt.page_manager.read_page page_id
  match SlottedPage.deserialize buffer bt.header.page_size with
  | some node => .ok node
  | none => .error .panicked

/-- `BTree::create_page`: bumps `page_count`, eagerly persists the header
(both steps `.unwrap()`ed), allocates a fresh page and returns an in-memory
`SlottedPage` sized by `header.page_size`. -/
def create_page (header : Header) (node_type : NodeType) (pm : PageManager) :
    Except BTreeErr (SlottedPage × Header × PageManager) := do
  let header := header.add_page
  let pm ← unwrapPanic (write_header header pm)
  let res ← unwrapPanic pm.allocate_page
  .ok (SlottedPage.new res.1 node_type header.page_size, header, res.2)

/-- `BTree::new`.  A failed header read synthesizes a fresh header with the
`page_size` argument; an existing non-empty file keeps its persisted header
while the page manager was already constructed from the argument. -/
def new (file : List UInt8) (page_size : Nat) : Except BTreeErr BTree :=
  let pm := PageManager.new file page_size Header.SIZE
  let header :=
    match read_header pm with
    | .ok h => h
    | .error _ => Header.new 1 VERSION page_size 0 0
  if header.pages_empty then do
    let (root_page, header, pm) ← create_page header .LEAF pm
    let header := header.add_root_page root_page.page_id
    let pm ← write_header header pm
    let pm ← write_page root_page pm
    let _ ← read_header pm
    .ok { header, page_manager := pm }
  else .ok { header, page_manager := pm }

/-- `BTree::search_node`.  The Rust function recurses along child pointers;
the embedding spends one unit of `fuel` per visited page and reports fuel
exhaustion as a panic (any tree of height below `fuel` is unaffected). -/
def search_node (bt : BTree) (fuel : Nat) (key : Nat) (page_id : Nat) :
    Except BTreeErr (List UInt8) :=
  match fuel with
  | 0 => .error .panicked
  | fuel + 1 => do
    let node ← bt.read_page page_id
    match node.node_type with
    | .INTERNAL =>
      match node.find_exact_key key with
      | some key_pos => node.read_value key_pos
      | none => do
        let child_node_id ← node.get_pointer key
        bt.search_node fuel key child_node_id
    | .LEAF =>
      match node.find_exact_key key with
      | some key_pos => node.read_value key_pos
      | none => .error (.keyNotFound (toString key))

def search (bt : BTree) (fuel : Nat) (key : Nat) : Except BTreeErr (List UInt8) :=
  bt.search_node fuel key bt.header.root_page_id

/-- `BTree::insert_into_page`.  Returns the updated tree state, the updated
page (the caller holds `&mut page`) and an optional promotion
`(key, value, right sibling)`. -/
def insert_into_page (fuel : Nat) (bt : BTree) (page : SlottedPage) (key : Nat)
    (value : List UInt8) :
    Except BTreeErr (BTree × SlottedPage × Option (Nat × List UInt8 × SlottedPage)) :=
  match fuel with
  | 0 => .error .panicked
  | fuel + 1 =>
    match page.node_type with
    | .LEAF =>
      match page.find_exact_key key with
      | some pos => do
        let page ← page.update pos key value
        let pm ← write_page page bt.page_manager
        .ok ({ bt with page_manager := pm }, page, none)
      | none =>
        let key_len := (encodeKey key).length
        let value_len := (encodeVal value).length
        if page.can_insert key_len value_len then do
          let pos := page.find_key_position key
          let page ← page.insert pos key value
          let pm ← write_page page bt.page_manager
          .ok ({ bt with page_manager := pm }, page, none)
        else do
          let alloc ← bt.page_manager.allocate_page
          let new_page_id := alloc.1
          let bt := { bt with page_manager := alloc.2 }
          let (promoted_key, promoted_value, page, right) ← page.split new_page_id
          let placed ←
            if key < promoted_key then do
              let pos := page.find_key_position key
              let page ← page.insert pos key value
              pure (page, right)
            else if promoted_key < key then do
              let pos := right.find_key_position key
              let right ← right.insert pos key value
              pure (page, right)
            else (.error .panicked : Except BTreeErr (SlottedPage × SlottedPage))
          let page := placed.1
          let right := placed.2
          let pm ← write_page page bt.page_manager
          let pm ← write_page right pm
          let bt := { bt with page_manager := pm, header := bt.header.add_page }
          .ok (bt, page, some (promoted_key, promoted_value, right))
    | .INTERNAL => do
      let child_id ← page.get_pointer key
      let child ← bt.read_page child_id
      let rec_result ← insert_into_page fuel bt child key value
      let bt := rec_result.1
      match rec_result.2.2 with
      | none => .ok (bt, page, none)
      | some (child_promoted_key, child_promoted_value, child_right) =>
        let insert_pos := page.find_key_position child_promoted_key
        if page.can_insert (encodeKey child_promoted_key).length
            (encodeVal child_promoted_value).length then do
          let page ← page.insert insert_pos child_promoted_key child_promoted_value
          if insert_pos + 1 > page.pointers.length then .error .panicked
          else
            let page := { page with
              pointers := vecInsertAt page.pointers (insert_pos + 1) child_right.page_id }
            let pm ← write_page page bt.page_manager
            let pm ← write_page child_right pm
            .ok ({ bt with page_manager := pm }, page, none)
        else do
          let alloc ← bt.page_manager.allocate_page
          let new_page_id := alloc.1
          let bt := { bt with page_manager := alloc.2 }
          let (to_promote_key, to_promote_value, page, right_of_current) ←
            page.split new_page_id
          let placed ←
            if child_promoted_key < to_promote_key then do
              let insert_pos := page.find_key_position child_promoted_key
              let page ← page.insert insert_pos child_promoted_key child_promoted_value
              if insert_pos + 1 > page.pointers.length then
                (.error .panicked : Except BTreeErr (SlottedPage × SlottedPage))
              else
                let newPtrs := vecInsertAt page.pointers (insert_pos + 1) child_right.page_id
                let page := { page with pointers := newPtrs }
                pure (page, right_of_current)
            else if to_promote_key < child_promoted_key then do
              let insert_pos := right_of_current.find_key_position child_promoted_key
              let right_of_current ←
                right_of_current.insert insert_pos child_promoted_key child_promoted_value
              if insert_pos + 1 > right_of_current.pointers.length then
                (.error .panicked : Except BTreeErr (SlottedPage × SlottedPage))
              else
                let newPtrs := vecInsertAt right_of_current.pointers (insert_pos + 1)
                  child_right.page_id
                let right_of_current := { right_of_current with pointers := newPtrs }
                pure (page, right_of_current)
            else (.error .panicked : Except BTreeErr (SlottedPage × SlottedPage))
          let page := placed.1
          let right_of_current := placed.2
          let pm ← write_page page bt.page_manager
          let pm ← write_page child_right pm
          let pm ← write_page right_of_current pm
          let bt := { bt with page_manager := pm, header := bt.header.add_page }
          .ok (bt, page, some (to_promote_key, to_promote_value, right_of_current))

/-- `BTree::insert`.  On a root split the new in-memory `root_page_id` is set
*after* the early `return Ok(())`, so the header is only persisted on the
non-splitting path. -/
def insert (bt : BTree) (fuel : Nat) (key : Nat) (value : List UInt8) :
    Except BTreeErr BTree := do
  let root ← bt.read_page bt.header.root_page_id
  let res ← insert_into_page fuel bt root key value
  let bt := res.1
  let root := res.2.1
  match res.2.2 with
  | some (promoted_key, promoted_value, right) => do
    let (new_root0, header, pm) ← create_page bt.header .INTERNAL bt.page_manager
    let bt : BTree := { header := header, page_manager := pm }
    let new_root ← new_root0.insert 0 promoted_key promoted_value
    let new_root := { new_root with
      pointers := new_root.pointers ++ [bt.header.root_page_id, right.page_id] }
    let pm ← write_page new_root bt.page_manager
    let pm ← write_page root pm
    .ok { header := { bt.header with root_page_id := new_root.page_id }
          page_manager := pm }
  | none => do
    let pm ← write_header bt.header bt.page_manager
    .ok { bt with page_manager := pm }

/-- `BTree::insert_into_page` under the `&mut self` semantics of the Rust
signature: the function mutates `self.page_manager` (page writes, page
allocations) and `self.header` in place as it goes, so a caller that keeps
using the tree after an `Err` return observes every mutation made before the
failure point.  The `Except`-valued `insert_into_page` above is the same
algorithm but drops those partial mutations on error (the two agree on every
`Ok` path); this variant returns the mutated tree alongside the result,
following the source's exact mutation order. -/
def insert_into_page_mut (fuel : Nat) (bt : BTree) (page : SlottedPage)
    (key : Nat) (value : List UInt8) :
    BTree × Except BTreeErr (SlottedPage × Option (Nat × List UInt8 × SlottedPage)) :=
  match fuel with
  | 0 => (bt, .error .panicked)
  | fuel + 1 =>
    match page.node_type with
    | .LEAF =>
      match page.find_exact_key key with
      | some pos =>
        match page.update pos key value with
        | .error e => (bt, .error e)
        | .ok page =>
          match write_page page bt.page_manager with
          | .error e => (bt, .error e)
          | .ok pm => ({ bt with page_manager := pm }, .ok (page, none))
      | none =>
        let key_len := (encodeKey key).length
        let value_len := (encodeVal value).length
        if page.can_insert key_len value_len then
          match page.insert (page.find_key_position key) key value with
          | .error e => (bt, .error e)
          | .ok page =>
            match write_page page bt.page_manager with
            | .error e => (bt, .error e)
            | .ok pm => ({ bt with page_manager := pm }, .ok (page, none))
        else
          match bt.page_manager.allocate_page with
          | .error e => (bt, .error e)
          | .ok (nid, pm0) =>
            let bt := { bt with page_manager := pm0 }
            match page.split nid with
            | .error e => (bt, .error e)
            | .ok (pk, pv, page, right) =>
              let placed : Except BTreeErr (SlottedPage × SlottedPage) :=
                if key < pk then
                  match page.insert (page.find_key_position key) key value with
                  | .error e => .error e
                  | .ok page => .ok (page, right)
                else if pk < key then
                  match right.insert (right.find_key_position key) key value with
                  | .error e => .error e
                  | .ok right => .ok (page, right)
                else .error .panicked
              match placed with
              | .error e => (bt, .error e)
              | .ok (page, right) =>
                match write_page page bt.page_manager with
                | .error e => (bt, .error e)
                | .ok pm1 =>
                  match write_page right pm1 with
                  | .error e => ({ bt with page_manager := pm1 }, .error e)
                  | .ok pm2 =>
                    ({ bt with page_manager := pm2, header := bt.header.add_page },
                      .ok (page, some (pk, pv, right)))
    | .INTERNAL =>
      match page.get_pointer key with
      | .error e => (bt, .error e)
      | .ok child_id =>
        match bt.read_page child_id with
        | .error e => (bt, .error e)
        | .ok child =>
          match insert_into_page_mut fuel bt child key value with
          | (bt, .error e) => (bt, .error e)
          | (bt, .ok (_, none)) => (bt, .ok (page, none))
          | (bt, .ok (_, some (cpk, cpv, cright))) =>
            let insert_pos := page.find_key_position cpk
            if page.can_insert (encodeKey cpk).length (encodeVal cpv).length then
              match page.insert insert_pos cpk cpv with
              | .error e => (bt, .error e)
              | .ok page =>
                if insert_pos + 1 > page.pointers.length then (bt, .error .panicked)
                else
                  let page := { page with
                    pointers := vecInsertAt page.pointers (insert_pos + 1) cright.page_id }
                  match write_page page bt.page_manager with
                  | .error e => (bt, .error e)
                  | .ok pm1 =>
                    match write_page cright pm1 with
                    | .error e => ({ bt with page_manager := pm1 }, .error e)
                    | .ok pm2 => ({ bt with page_manager := pm2 }, .ok (page, none))
            else
              match bt.page_manager.allocate_page with
              | .error e => (bt, .error e)
              | .ok (nid, pm0) =>
                let bt := { bt with page_manager := pm0 }
                match page.split nid with
                | .error e => (bt, .error e)
                | .ok (tpk, tpv, page, roc) =>
                  let placed : Except BTreeErr (SlottedPage × SlottedPage) :=
                    if cpk < tpk then
                      match page.insert (page.find_key_position cpk) cpk cpv with
                      | .error e => .error e
                      | .ok page2 =>
                        let ip := page.find_key_position cpk
                        if ip + 1 > page2.pointers.length then .error .panicked
                        else
                          .ok ({ page2 with
                            pointers := vecInsertAt page2.pointers (ip + 1)
                              cright.page_id }, roc)
                    else if tpk < cpk then
                      match roc.insert (roc.find_key_position cpk) cpk cpv with
                      | .error e => .error e
                      | .ok roc2 =>
                        let ip := roc.find_key_position cpk
                        if ip + 1 > roc2.pointers.length then .error .panicked
                        else
                          .ok (page, { roc2 with
                            pointers := vecInsertAt roc2.pointers (ip + 1)
                              cright.page_id })
                    else .error .panicked
                  match placed with
                  | .error e => (bt, .error e)
                  | .ok (page, roc) =>
                    match write_page page bt.page_manager with
                    | .error e => (bt, .error e)
                    | .ok pm1 =>
                      match write_page cright pm1 with
                      | .error e => ({ bt with page_manager := pm1 }, .error e)
                      | .ok pm2 =>
                        match write_page roc pm2 with
                        | .error e => ({ bt with page_manager := pm2 }, .error e)
                        | .ok pm3 =>
                          ({ bt with page_manager := pm3, header := bt.header.add_page },
                            .ok (page, some (tpk, tpv, roc)))

/-- `BTree::insert` under the `&mut self` semantics (see
`insert_into_page_mut`): partial mutations survive an error return.  The
root-split arm inlines `create_page`, whose two `.unwrap()`s are modelled as
panics with the state mutated so far. -/
def insert_mut (bt : BTree) (fuel : Nat) (key : Nat) (value : List UInt8) :
    BTree × Except BTreeErr Unit :=
  match bt.read_page bt.header.root_page_id with
  | .error e => (bt, .error e)
  | .ok root =>
    match insert_into_page_mut fuel bt root key value with
    | (bt, .error e) => (bt, .error e)
    | (bt, .ok (root, some (pk, pv, right))) =>
      let header := bt.header.add_page
      match write_header header bt.page_manager with
      | .error _ => ({ bt with header := header }, .error .panicked)
      | .ok pm =>
        match pm.allocate_page with
        | .error _ =>
          ({ bt with header := header, page_manager := pm }, .error .panicked)
        | .ok (nid, pm) =>
          let bt : BTree := { header := header, page_manager := pm }
          let new_root0 := SlottedPage.new nid .INTERNAL header.page_size
          match new_root0.insert 0 pk pv with
          | .error e => (bt, .error e)
          | .ok new_root =>
            let new_root := { new_root with
              pointers := new_root.pointers ++
                [bt.header.root_page_id, right.page_id] }
            match write_page new_root bt.page_manager with
            | .error e => (bt, .error e)
            | .ok pm1 =>
              match write_page root pm1 with
              | .error e => ({ bt with page_manager := pm1 }, .error e)
              | .ok pm2 =>
                ({ header := { bt.header with root_page_id := new_root.page_id }
                   page_manager := pm2 }, .ok ())
    | (bt, .ok (_, none)) =>
      match write_header bt.header bt.page_manager with
      | .error e => (bt, .error e)
      | .ok pm => ({ bt with page_manager := pm }, .ok ())

end BTree

/-! ## Derived predicates used by the statements -/

/-- Total length of the free-list holes. -/
def holeSum (p : SlottedPage) : Nat := (p.free_list.map FreeSpaceRegion.length).sum

/-- `x` lies inside one of the holes of `fl`. -/
def coveredBy (fl : List FreeSpaceRegion) (x : Nat) : Prop :=
  ∃ r ∈ fl, r.offset ≤ x ∧ x < r.offset + r.length

/-- The free-space identity the code actually maintains: `total_free` counts
the contiguous bytes above the fixed 17-byte page header plus the holes (the
slot/pointer/free-list array bytes are not deducted). -/
def freeIdentity (p : SlottedPage) : Prop :=
  p.total_free = (p.free_space_end - SlottedPage.HEADER_SIZE) + holeSum p

/-- Following the spec's words (claim C7): `total_free` equals the contiguous
region measured from `header_region_end` (slot, pointer and free-list array
bytes counted as used) plus the holes. -/
def specFreeIdentity (p : SlottedPage) : Prop :=
  p.total_free = (p.free_space_end - p.header_region_end) + holeSum p

/-- Following the spec's words (claim C6): `can_insert` succeeds iff the
entry (plus the prospective child pointer on an INTERNAL page) fits in the
contiguous free region `[header_region_end, free_space_end)`, where
`header_region_end` counts the free-list array bytes as used. -/
def specCanInsert (p : SlottedPage) (key_len value_len : Nat) : Bool :=
  let needed := Slot.SIZE + key_len + value_len
  let needed :=
    match p.node_type with
    | .LEAF => needed
    | .INTERNAL => needed + 8
  needed ≤ p.free_space_end - p.header_region_end

/-- The structural facts about a page that the free-space lemmas need: the
accounting identity holds, and every hole and every live entry lies in the
data region `[free_space_end, …)` with a positive length. -/
def WFfree (p : SlottedPage) : Prop :=
  freeIdentity p ∧
  (∀ r ∈ p.free_list, p.free_space_end ≤ r.offset ∧ 0 < r.length) ∧
  (∀ s ∈ p.slots, p.free_space_end ≤ s.offset ∧ 0 < s.key_length + s.value_length)

/-- A legal in-memory page state (what every page produced by the code
satisfies): field bounds imposed by the on-disk `u16`/`u64` layout, array
arities, a data buffer of exactly `page_size` bytes, and all live entries in
the data region. -/
def pageLegal (p : SlottedPage) : Prop :=
  p.data.length = p.page_size ∧
  p.num_keys = p.slots.length ∧
  (p.node_type = .LEAF → p.pointers = []) ∧
  (p.node_type = .INTERNAL → p.pointers.length = p.num_keys + 1) ∧
  (SlottedPage.serPrefix p).length ≤ p.free_space_end ∧
  p.free_space_end ≤ p.page_size ∧
  p.page_id < 2 ^ 64 ∧ p.num_keys < 2 ^ 16 ∧ p.free_space_end < 2 ^ 16 ∧
  p.free_list.length < 2 ^ 16 ∧ p.total_free < 2 ^ 16 ∧
  (∀ s ∈ p.slots,
    s.offset < 2 ^ 16 ∧ s.key_length < 2 ^ 16 ∧ s.value_length < 2 ^ 16 ∧
      p.free_space_end ≤ s.offset) ∧
  (∀ q ∈ p.pointers, q < 2 ^ 64) ∧
  (∀ r ∈ p.free_list, r.offset < 2 ^ 16 ∧ r.length < 2 ^ 16)

/-- The total byte length that `compact` re-appends: each live slot
contributes an 8-byte re-encoded key plus the length-prefixed re-encoded
value read back from the data region. -/
def compactLenSum (p : SlottedPage) : Nat :=
  ((List.range p.slots.length).map (fun i =>
    16 + (decodeVal (readBytes p.data
      ((p.slots.getD i default).offset + (p.slots.getD i default).key_length)
      (p.slots.getD i default).value_length)).length)).sum

/-- In-range header fields (imposed by the `u16`/`u64` on-disk layout). -/
def headerLegal (h : Header) : Prop :=
  h.magic_number < 2 ^ 16 ∧ h.version < 2 ^ 16 ∧ h.page_size < 2 ^ 64 ∧
    h.root_page_id < 2 ^ 64 ∧ h.page_count < 2 ^ 64

/-! ## Concrete executions used by the counterexamples

All runs use tiny pages (64 or 96 bytes) so that a handful of inserts
exercises the split machinery; `10` units of recursion fuel are ample for
trees of height ≤ 2. -/

/-- Fresh 64-byte-page tree; inserting keys 1, 2, 3 (9-byte encoded values)
makes the third insert split the root. -/
def c2Run : Except BTreeErr BTree := do
  let bt ← BTree.new [] 64
  let bt ← bt.insert 10 1 [1]
  let bt ← bt.insert 10 2 [2]
  bt.insert 10 3 [3]

/-- Reopen the same file with the same page size. -/
def c2Reopened : Except BTreeErr BTree := do
  let bt ← c2Run
  BTree.new bt.page_manager.file 64

/-- Fresh 96-byte-page tree; the fourth insert splits the root and promotes
key 2 into the new internal root; then key 2 is re-inserted with a new
value. -/
def c3Run : Except BTreeErr BTree := do
  let bt ← BTree.new [] 96
  let bt ← bt.insert 10 1 [1]
  let bt ← bt.insert 10 2 [2]
  let bt ← bt.insert 10 3 [3]
  let bt ← bt.insert 10 4 [4]
  bt.insert 10 2 [9]

/-- Fresh 64-byte-page tree; key 1 inserted with an empty value, then
re-inserted with a 25-byte value (33 encoded bytes, which fit an empty
64-byte page). -/
def c4Run : Except BTreeErr BTree := do
  let bt ← BTree.new [] 64
  let bt ← bt.insert 10 1 []
  bt.insert 10 1 (List.replicate 25 7)

/-- A 96-byte leaf page holding keys 1 and 3 with a hole where key 2 was. -/
def c6Page : Except BTreeErr SlottedPage := do
  let p := SlottedPage.new 0 .LEAF 96
  let p ← p.insert 0 1 [1]
  let p ← p.insert 1 2 [2]
  let p ← p.insert 2 3 [3]
  p.delete 1

/-- A 64-byte leaf page right after its first insert. -/
def c7Page : Except BTreeErr SlottedPage :=
  (SlottedPage.new 0 .LEAF 64).insert 0 1 [1]

/-- Delete the single entry of a one-entry page: the freed range starts
exactly at `free_space_end`. -/
def c8Page : Except BTreeErr SlottedPage := do
  let p ← (SlottedPage.new 0 .LEAF 64).insert 0 1 [1]
  p.delete 0

/-- A file holding only a valid header that records `page_size = 64`,
`root_page_id = 0`, `page_count = 1`. -/
def c5File : List UInt8 := Header.serialize (Header.new 1 0 64 0 1)

/-- The page produced by the single insert of `c7Page`, extracted from the
`Except` wrapper (the insert succeeds, so the fallback branch is dead). -/
def c7q : SlottedPage :=
  match (SlottedPage.new 0 .LEAF 64).insert 0 1 [1] with
  | .ok q => q
  | .error _ => SlottedPage.new 0 .LEAF 64

/-- The page produced by deleting the sole entry of `c7q` (the delete
succeeds, so the fallback branch is dead). -/
def c8q : SlottedPage :=
  match c7q.delete 0 with
  | .ok q => q
  | .error _ => c7q

/-- The buffer produced by serializing `c7q` (serialization succeeds, so the
fallback branch is dead). -/
def c9buf : List UInt8 :=
  match SlottedPage.serialize c7q with
  | .ok b => b
  | .error _ => []

/-- The four distinct-key inserts of the C1 trace: values of 8, 4, 11 and
7 bytes on 64-byte pages. -/
def c1kvs : List (Nat × List UInt8) :=
  [(1, List.replicate 8 1), (2, List.replicate 4 2),
   (3, List.replicate 11 3), (4, List.replicate 7 4)]

/-- The freshly created 64-byte-page tree (creation succeeds; the fallback
branch is dead). -/
def c1Base : BTree :=
  match BTree.new [] 64 with
  | .ok b => b
  | .error _ =>
    { header := Header.new 0 0 0 0 0
      page_manager := { file := [], page_size := 0, header_size := 0 } }

/-- Fold the `&mut`-semantics insert over a key list, keeping the mutated
tree across failures (as the Rust caller holding `&mut self` does) and
logging each insert's result. -/
def c1Step (st : BTree × List (Except BTreeErr Unit)) (kv : Nat × List UInt8) :
    BTree × List (Except BTreeErr Unit) :=
  let res := BTree.insert_mut st.1 10 kv.1 kv.2
  (res.1, st.2 ++ [res.2])

/-- The tree after the first three (successful) inserts of `c1kvs`. -/
def c1Mid : BTree := ((c1kvs.take 3).foldl c1Step (c1Base, [])).1

/-- The tree and the insert results after all four inserts of `c1kvs` (the
fourth fails). -/
def c1Run : BTree × List (Except BTreeErr Unit) :=
  c1kvs.foldl c1Step (c1Base, [])

/-! ## Arithmetic and byte-level lemmas -/

theorem toNat_ofNat8 (n : Nat) : (UInt8.ofNat n).toNat = n % 256 := rfl

theorem toNat_lt8 (x : UInt8) : x.toNat < 256 := x.toNat_lt

@[simp] theorem encLE_length (w n : Nat) : (encLE w n).length = w := by
  induction w generalizing n with
  | zero => rfl
  | succ w ih => simp [encLE, ih]

theorem decLE_encLE (w n : Nat) (h : n < 256 ^ w) : decLE (encLE w n) = n := by
  induction w generalizing n with
  | zero =>
    simp only [Nat.pow_zero, Nat.lt_one_iff] at h
    simp [encLE, decLE, h]
  | succ w ih =>
    have hlt : n % 256 < 256 := Nat.mod_lt _ (by norm_num)
    have hdiv : n / 256 < 256 ^ w := by
      rw [Nat.div_lt_iff_lt_mul (by norm_num)]
      calc n < 256 ^ (w + 1) := h
        _ = 256 ^ w * 256 := by ring
    rw [encLE, decLE, ih _ hdiv, toNat_ofNat8]
    omega

theorem encLE_decLE (b : List UInt8) (w : Nat) (h : b.length = w) :
    encLE w (decLE b) = b := by
  induction b generalizing w with
  | nil => subst h; rfl
  | cons x xs ih =>
    subst h
    simp only [List.length_cons, encLE, decLE]
    have hx : x.toNat < 256 := toNat_lt8 x
    have h1 : (x.toNat + 256 * decLE xs) % 256 = x.toNat := by
      rw [Nat.add_mul_mod_self_left, Nat.mod_eq_of_lt hx]
    have h2 : (x.toNat + 256 * decLE xs) / 256 = decLE xs := by
      rw [Nat.add_mul_div_left _ _ (by norm_num : (0:Nat) < 256),
        Nat.div_eq_of_lt hx, Nat.zero_add]
    rw [h1, h2, ih _ rfl]
    congr 1
    apply UInt8.ext
    rw [toNat_ofNat8, Nat.mod_eq_of_lt hx]

theorem decLE_lt (b : List UInt8) : decLE b < 256 ^ b.length := by
  induction b with
  | nil => simp [decLE]
  | cons x xs ih =>
    have hx : x.toNat < 256 := x.toNat_lt
    simp only [decLE, List.length_cons, pow_succ]
    calc x.toNat + 256 * decLE xs
        < 256 + 256 * decLE xs := by omega
      _ ≤ 256 * (decLE xs + 1) := by ring_nf; omega
      _ ≤ 256 * 256 ^ xs.length := by
          have : decLE xs + 1 ≤ 256 ^ xs.length := ih
          exact Nat.mul_le_mul_left _ this
      _ = 256 ^ xs.length * 256 := by ring

theorem writeBytes_length (buffer : List UInt8) (off : Nat) (bytes : List UInt8)
    (h : off + bytes.length ≤ buffer.length) :
    (writeBytes buffer off bytes).length = buffer.length := by
  simp [writeBytes]
  omega

@[simp] theorem readBytes_length (buffer : List UInt8) (off len : Nat)
    (h : off + len ≤ buffer.length) : (readBytes buffer off len).length = len := by
  simp [readBytes]
  omega

@[simp] theorem encodeKey_length (k : Nat) : (encodeKey k).length = 8 := by
  simp [encodeKey]

@[simp] theorem encodeVal_length (v : List UInt8) :
    (encodeVal v).length = 8 + v.length := by
  simp [encodeVal]

theorem decodeKey_encodeKey (k : Nat) (h : k < 2 ^ 64) : decodeKey (encodeKey k) = k := by
  have : (2 : Nat) ^ 64 = 256 ^ 8 := by norm_num
  exact decLE_encLE 8 k (this ▸ h)

theorem decodeVal_encodeVal (v : List UInt8) (h : v.length < 2 ^ 64) :
    decodeVal (encodeVal v) = v := by
  have h8 : (encLE 8 v.length).length = 8 := encLE_length 8 v.length
  have htk : (encLE 8 v.length ++ v).take 8 = encLE 8 v.length := by
    rw [List.take_append_of_le_length (by omega), List.take_of_length_le (by omega)]
  have hdr : (encLE 8 v.length ++ v).drop 8 = v := by
    rw [List.drop_append_of_le_length (by omega), List.drop_of_length_le (by omega)]
    simp
  have : (2 : Nat) ^ 64 = 256 ^ 8 := by norm_num
  simp only [decodeVal, encodeVal, htk, hdr, decLE_encLE 8 v.length (this ▸ h),
    List.take_of_length_le (le_refl v.length)]

/-! ## Helper lemmas about free-list bookkeeping -/

theorem sumLen_append (a b : List FreeSpaceRegion) :
    ((a ++ b).map FreeSpaceRegion.length).sum =
      (a.map FreeSpaceRegion.length).sum + (b.map FreeSpaceRegion.length).sum := by
  simp

theorem coveredBy_append (a b : List FreeSpaceRegion) (x : Nat) :
    coveredBy (a ++ b) x ↔ coveredBy a x ∨ coveredBy b x := by
  simp only [coveredBy, List.mem_append]
  constructor
  · rintro ⟨r, (hr | hr), hx⟩
    · exact .inl ⟨r, hr, hx⟩
    · exact .inr ⟨r, hr, hx⟩
  · rintro (⟨r, hr, hx⟩ | ⟨r, hr, hx⟩)
    · exact ⟨r, .inl hr, hx⟩
    · exact ⟨r, .inr hr, hx⟩

theorem coveredBy_cons (r : FreeSpaceRegion) (l : List FreeSpaceRegion) (x : Nat) :
    coveredBy (r :: l) x ↔ (r.offset ≤ x ∧ x < r.offset + r.length) ∨ coveredBy l x := by
  simp only [coveredBy, List.mem_cons]
  constructor
  · rintro ⟨s, (rfl | hs), hx⟩
    · exact .inl hx
    · exact .inr ⟨s, hs, hx⟩
  · rintro (hx | ⟨s, hs, hx⟩)
    · exact ⟨r, .inl rfl, hx⟩
    · exact ⟨s, .inr hs, hx⟩

@[simp] theorem coveredBy_nil (x : Nat) : ¬ coveredBy [] x := by
  rintro ⟨r, hr, -⟩
  exact absurd hr (List.not_mem_nil r)

theorem mem_vecInsertAt (l : List α) (pos : Nat) (a b : α) :
    b ∈ vecInsertAt l pos a ↔ b ∈ l ∨ b = a := by
  have hl : l.take pos ++ l.drop pos = l := List.take_append_drop pos l
  simp only [vecInsertAt, List.mem_append, List.mem_cons]
  constructor
  · rintro (h | rfl | h)
    · exact .inl (hl ▸ List.mem_append.mpr (.inl h))
    · exact .inr rfl
    · exact .inl (hl ▸ List.mem_append.mpr (.inr h))
  · rintro (h | rfl)
    · rcases List.mem_append.mp (hl.symm ▸ h : b ∈ l.take pos ++ l.drop pos) with h | h
      · exact .inl h
      · exact .inr (.inr h)
    · exact .inr (.inl rfl)

theorem sumLen_vecInsertAt (l : List FreeSpaceRegion) (pos : Nat) (r : FreeSpaceRegion) :
    ((vecInsertAt l pos r).map FreeSpaceRegion.length).sum =
      (l.map FreeSpaceRegion.length).sum + r.length := by
  simp only [vecInsertAt, List.map_append, List.sum_append, List.map_cons, List.sum_cons,
    List.map_take, List.map_drop]
  have h := List.sum_take_add_sum_drop (l.map FreeSpaceRegion.length) pos
  omega

theorem coveredBy_vecInsertAt (l : List FreeSpaceRegion) (pos : Nat)
    (r : FreeSpaceRegion) (x : Nat) :
    coveredBy (vecInsertAt l pos r) x ↔
      coveredBy l x ∨ (r.offset ≤ x ∧ x < r.offset + r.length) := by
  simp only [coveredBy]
  constructor
  · rintro ⟨s, hs, hx⟩
    rcases (mem_vecInsertAt l pos r s).mp hs with h | rfl
    · exact .inl ⟨s, h, hx⟩
    · exact .inr hx
  · rintro (⟨s, hs, hx⟩ | hx)
    · exact ⟨s, (mem_vecInsertAt l pos r s).mpr (.inl hs), hx⟩
    · exact ⟨r, (mem_vecInsertAt l pos r r).mpr (.inr rfl), hx⟩

theorem sumLen_eraseIdx (l : List FreeSpaceRegion) (i : Nat) (hi : i < l.length) :
    ((l.eraseIdx i).map FreeSpaceRegion.length).sum + (l.get ⟨i, hi⟩).length =
      (l.map FreeSpaceRegion.length).sum := by
  induction l generalizing i with
  | nil => simp at hi
  | cons a l ih =>
    cases i with
    | zero => simp [List.eraseIdx]; omega
    | succ i =>
      have hi' : i < l.length := by simpa using hi
      simp only [List.eraseIdx, List.map_cons, List.sum_cons, List.get_cons_succ]
      rw [← ih i hi']
      omega

theorem sumLen_set (l : List FreeSpaceRegion) (i : Nat) (r : FreeSpaceRegion)
    (hi : i < l.length) :
    ((l.set i r).map FreeSpaceRegion.length).sum + (l.get ⟨i, hi⟩).length =
      (l.map FreeSpaceRegion.length).sum + r.length := by
  induction l generalizing i with
  | nil => simp at hi
  | cons a l ih =>
    cases i with
    | zero => simp [List.set]; omega
    | succ i =>
      have hi' : i < l.length := by simpa using hi
      simp only [List.set, List.map_cons, List.sum_cons, List.get_cons_succ]
      have := ih i hi'
      omega

theorem mergeElem_sum_le (l : List FreeSpaceRegion) (i : Nat) (hi : i < l.length) :
    (l.get ⟨i, hi⟩).length ≤ (l.map FreeSpaceRegion.length).sum := by
  induction l generalizing i with
  | nil => simp at hi
  | cons a l ih =>
    cases i with
    | zero => simp
    | succ i =>
      have hi' : i < l.length := by simpa using hi
      have := ih i hi'
      simp only [List.get_cons_succ, List.map_cons, List.sum_cons]
      omega

theorem bestfit_fold_mem {L : Nat} (l : List (Nat × FreeSpaceRegion))
    (acc : Option (Nat × FreeSpaceRegion)) (r : Nat × FreeSpaceRegion)
    (h : l.foldl (fun best ir =>
      match best with
      | none => some ir
      | some b => if ir.2.length - L < b.2.length - L then some ir else best) acc
      = some r) :
    acc = some r ∨ r ∈ l := by
  induction l generalizing acc with
  | nil => exact .inl h
  | cons a l ih =>
    simp only [List.foldl_cons] at h
    rcases ih _ h with hacc | hmem
    · cases acc with
      | none =>
        simp only [Option.some.injEq] at hacc
        exact .inr (hacc ▸ List.mem_cons_self a l)
      | some b =>
        by_cases hc : a.2.length - L < b.2.length - L
        · simp only [hc, if_true] at hacc
          simp only [Option.some.injEq] at hacc
          exact .inr (hacc ▸ List.mem_cons_self a l)
        · simp only [hc, if_false] at hacc
          exact .inl hacc
    · exact .inr (List.mem_cons_of_mem a hmem)

/-- `find_space_for` returning a free-list index: that index is in range, the
offset is that hole's offset, and the hole is large enough. -/
theorem find_space_for_hole_spec (p : SlottedPage) (L off idx : Nat)
    (h : p.find_space_for L = some (off, some idx)) :
    ∃ hi : idx < p.free_list.length,
      (p.free_list.get ⟨idx, hi⟩).offset = off ∧
        L ≤ (p.free_list.get ⟨idx, hi⟩).length := by
  rw [SlottedPage.find_space_for] at h
  split at h
  · next ir heq =>
    simp only [Option.some.injEq, Prod.mk.injEq] at h
    obtain ⟨hoff, hidx⟩ := h
    have hmem := List.mem_of_find?_eq_some heq
    have hpred := List.find?_some heq
    simp only [decide_eq_true_eq] at hpred
    have hget := List.mem_enum_iff_getElem?.mp hmem
    have hlt : ir.1 < p.free_list.length := by
      by_contra hge
      rw [List.getElem?_eq_none (by omega)] at hget
      exact Option.noConfusion hget
    refine ⟨hidx ▸ hlt, ?_, ?_⟩
    · have : p.free_list[ir.1] = ir.2 := by
        have := hget
        rw [List.getElem?_eq_getElem hlt] at this
        exact Option.some.inj this
      subst hidx
      simp only [List.get_eq_getElem, this, hoff]
    · have : p.free_list[ir.1] = ir.2 := by
        have := hget
        rw [List.getElem?_eq_getElem hlt] at this
        exact Option.some.inj this
      subst hidx
      simp only [List.get_eq_getElem, this, hpred]
      omega
  · next heq =>
    simp only at h
    split at h
    · next ir heq2 =>
      simp only [Option.some.injEq, Prod.mk.injEq] at h
      obtain ⟨hoff, hidx⟩ := h
      rcases bestfit_fold_mem _ none ir heq2 with hcon | hmem
      · exact Option.noConfusion hcon
      · have hmem2 := List.mem_filter.mp hmem
        have hpred : L ≤ ir.2.length := by
          have := hmem2.2
          simpa using this
        have henum := List.mem_enum_iff_getElem?.mp hmem2.1
        have hlt : ir.1 < p.free_list.length := by
          by_contra hge
          rw [List.getElem?_eq_none (by omega)] at henum
          exact Option.noConfusion henum
        have hgete : p.free_list[ir.1] = ir.2 := by
          rw [List.getElem?_eq_getElem hlt] at henum
          exact Option.some.inj henum
        refine ⟨hidx ▸ hlt, ?_, ?_⟩
        · subst hidx
          simp only [List.get_eq_getElem, hgete, hoff]
        · subst hidx
          simp only [List.get_eq_getElem, hgete]
          exact hpred
    · next heq2 =>
      split at h
      · split at h
        · simp only [Option.some.injEq, Prod.mk.injEq] at h
          exact absurd h.2 (by simp)
        · exact Option.noConfusion h
      · exact Option.noConfusion h

/-- `find_space_for` returning the contiguous region: the entry fits under
`free_space_end` and the chosen offset leaves room for one more slot above
`header_region_end`. -/
theorem find_space_for_contig_spec (p : SlottedPage) (L off : Nat)
    (h : p.find_space_for L = some (off, none)) :
    L ≤ p.free_space_end ∧ off = p.free_space_end - L ∧
      p.header_region_end + Slot.SIZE ≤ off := by
  rw [SlottedPage.find_space_for] at h
  split at h
  · next ir heq =>
    simp only [Option.some.injEq, Prod.mk.injEq] at h
    exact absurd h.2 (by simp)
  · next heq =>
    simp only at h
    split at h
    · next ir heq2 =>
      simp only [Option.some.injEq, Prod.mk.injEq] at h
      exact absurd h.2 (by simp)
    · next heq2 =>
      split at h
      · next hle =>
        split at h
        · next hroom =>
          simp only [Option.some.injEq, Prod.mk.injEq] at h
          exact ⟨hle, h.1.symm, h.1 ▸ hroom⟩
        · exact Option.noConfusion h
      · exact Option.noConfusion h

/-- Invariants of the `retain_mut` pass of `add_to_free_list`: the moving
region keeps a positive length and an offset in the data region, the kept
holes keep their invariants, total hole length is preserved, and the bytes
covered by kept holes plus the moving region are exactly the bytes covered by
the processed holes plus the original region. -/
theorem atfl_fold_spec (fse : Nat) (l : List FreeSpaceRegion)
    (kept : List FreeSpaceRegion) (region : FreeSpaceRegion)
    (hro : fse ≤ region.offset) (hrl : 0 < region.length)
    (hl : ∀ r ∈ l, fse ≤ r.offset ∧ 0 < r.length)
    (hkept : ∀ r ∈ kept, fse ≤ r.offset ∧ 0 < r.length) :
    (fse ≤ (l.foldl atflStep (kept, region)).2.offset ∧
      0 < (l.foldl atflStep (kept, region)).2.length) ∧
    (∀ r ∈ (l.foldl atflStep (kept, region)).1, fse ≤ r.offset ∧ 0 < r.length) ∧
    (((l.foldl atflStep (kept, region)).1.map FreeSpaceRegion.length).sum +
        (l.foldl atflStep (kept, region)).2.length =
      (kept.map FreeSpaceRegion.length).sum + (l.map FreeSpaceRegion.length).sum +
        region.length) ∧
    (∀ x, (coveredBy (l.foldl atflStep (kept, region)).1 x ∨
        ((l.foldl atflStep (kept, region)).2.offset ≤ x ∧
          x < (l.foldl atflStep (kept, region)).2.offset +
            (l.foldl atflStep (kept, region)).2.length)) ↔
      (coveredBy kept x ∨ coveredBy l x ∨
        (region.offset ≤ x ∧ x < region.offset + region.length))) := by
  induction l generalizing kept region with
  | nil =>
    simp only [List.foldl_nil]
    refine ⟨⟨hro, hrl⟩, hkept, by simp, fun x => ?_⟩
    simp only [coveredBy_nil, false_or]
  | cons a l ih =>
    have ha := hl a (List.mem_cons_self a l)
    have hl' : ∀ r ∈ l, fse ≤ r.offset ∧ 0 < r.length :=
      fun r hr => hl r (List.mem_cons_of_mem a hr)
    simp only [List.foldl_cons]
    by_cases h1 : a.offset + a.length = region.offset
    · have hstep : atflStep (kept, region) a =
          (kept, (⟨a.offset, region.length + a.length⟩ : FreeSpaceRegion)) := by
        simp [atflStep, h1]
      rw [hstep]
      obtain ⟨hA, hB, hC, hD⟩ := ih kept ⟨a.offset, region.length + a.length⟩
        ha.1 (by simp; omega) hl' hkept
      refine ⟨hA, hB, ?_, fun x => ?_⟩
      · simp only [List.map_cons, List.sum_cons] at hC ⊢
        omega
      · rw [hD x, coveredBy_cons]
        simp only
        constructor
        · rintro (hk | hcl | hx)
          · exact .inl hk
          · exact .inr (.inl (.inr hcl))
          · rcases Nat.lt_or_ge x (a.offset + a.length) with hc | hc
            · exact .inr (.inl (.inl ⟨hx.1, hc⟩))
            · exact .inr (.inr ⟨by omega, by omega⟩)
        · rintro (hk | (hx | hcl) | hx)
          · exact .inl hk
          · exact .inr (.inr ⟨by omega, by omega⟩)
          · exact .inr (.inl hcl)
          · exact .inr (.inr ⟨by omega, by omega⟩)
    · by_cases h2 : region.offset + region.length = a.offset
      · have hstep : atflStep (kept, region) a =
            (kept, (⟨region.offset, region.length + a.length⟩ : FreeSpaceRegion)) := by
          simp [atflStep, h1, h2]
        rw [hstep]
        obtain ⟨hA, hB, hC, hD⟩ := ih kept ⟨region.offset, region.length + a.length⟩
          hro (by simp; omega) hl' hkept
        refine ⟨hA, hB, ?_, fun x => ?_⟩
        · simp only [List.map_cons, List.sum_cons] at hC ⊢
          omega
        · rw [hD x, coveredBy_cons]
          simp only
          constructor
          · rintro (hk | hcl | hx)
            · exact .inl hk
            · exact .inr (.inl (.inr hcl))
            · rcases Nat.lt_or_ge x (region.offset + region.length) with hc | hc
              · exact .inr (.inr ⟨hx.1, hc⟩)
              · exact .inr (.inl (.inl ⟨by omega, by omega⟩))
          · rintro (hk | (hx | hcl) | hx)
            · exact .inl hk
            · exact .inr (.inr ⟨by omega, by omega⟩)
            · exact .inr (.inl hcl)
            · exact .inr (.inr ⟨by omega, by omega⟩)
      · have hstep : atflStep (kept, region) a = (kept ++ [a], region) := by
          simp [atflStep, h1, h2]
        rw [hstep]
        obtain ⟨hA, hB, hC, hD⟩ := ih (kept ++ [a]) region hro hrl hl'
          (fun r hr => by
            rcases List.mem_append.mp hr with hr | hr
            · exact hkept r hr
            · rcases List.mem_singleton.mp hr with rfl
              exact ha)
        refine ⟨hA, hB, ?_, fun x => ?_⟩
        · simp only [List.map_append, List.sum_append, List.map_cons, List.sum_cons,
            List.map_nil, List.sum_nil] at hC ⊢
          omega
        · rw [hD x]
          simp only [coveredBy_append, coveredBy_cons, coveredBy_nil, or_false]
          tauto

/-- Behaviour of `add_to_free_list` on a region lying (with positive length)
in the data region `[free_space_end, …)` of a page whose holes all lie there
too: the merge-into-contiguous branch can never fire (it would need
`offset + length = free_space_end`), so `free_space_end` is unchanged, the
region's bytes are added to the hole coverage, and the total hole length
grows by exactly the region's length. -/
theorem add_to_free_list_spec (p : SlottedPage) (region : FreeSpaceRegion)
    (hoff : p.free_space_end ≤ region.offset) (hpos : 0 < region.length)
    (hfl : ∀ r ∈ p.free_list, p.free_space_end ≤ r.offset ∧ 0 < r.length) :
    (p.add_to_free_list region).free_space_end = p.free_space_end ∧
    (p.add_to_free_list region).total_free = p.total_free ∧
    (p.add_to_free_list region).slots = p.slots ∧
    (p.add_to_free_list region).num_keys = p.num_keys ∧
    (p.add_to_free_list region).data = p.data ∧
    (p.add_to_free_list region).pointers = p.pointers ∧
    (p.add_to_free_list region).node_type = p.node_type ∧
    (p.add_to_free_list region).page_size = p.page_size ∧
    (p.add_to_free_list region).page_id = p.page_id ∧
    holeSum (p.add_to_free_list region) = holeSum p + region.length ∧
    (∀ r ∈ (p.add_to_free_list region).free_list,
      p.free_space_end ≤ r.offset ∧ 0 < r.length) ∧
    (∀ x, coveredBy (p.add_to_free_list region).free_list x ↔
      coveredBy p.free_list x ∨
        (region.offset ≤ x ∧ x < region.offset + region.length)) := by
  obtain ⟨⟨hA1, hA2⟩, hB, hC, hD⟩ :=
    atfl_fold_spec p.free_space_end p.free_list [] region hoff hpos hfl
      (by intro r hr; exact absurd hr (List.not_mem_nil r))
  have hne : ¬ ((p.free_list.foldl atflStep ([], region)).2.offset +
      (p.free_list.foldl atflStep ([], region)).2.length = p.free_space_end) := by
    omega
  rw [SlottedPage.add_to_free_list]
  simp only
  rw [if_neg hne]
  refine ⟨rfl, rfl, rfl, rfl, rfl, rfl, rfl, rfl, rfl, ?_, ?_, ?_⟩
  · unfold holeSum
    simp only [sumLen_vecInsertAt]
    simp at hC
    omega
  · intro r hr
    rcases (mem_vecInsertAt _ _ _ r).mp hr with hr | rfl
    · exact hB r hr
    · exact ⟨hA1, hA2⟩
  · intro x
    rw [coveredBy_vecInsertAt]
    have := hD x
    simp only [coveredBy_nil, false_or] at this
    rw [← this]

/-- A successful `insert` preserves the free-space identity: `total_free`
shrinks by the entry length, and so does either the contiguous region or the
chosen hole. -/
theorem insert_freeIdentity (p : SlottedPage) (pos k : Nat) (v : List UInt8)
    (q : SlottedPage) (hI : freeIdentity p) (h : p.insert pos k v = .ok q) :
    freeIdentity q := by
  rw [SlottedPage.insert] at h
  split at h
  · exact absurd h (by simp)
  · next off flidx heq =>
    dsimp only at h
    split at h
    · exact absurd h (by simp)
    · next hple =>
      have hq := Except.ok.inj h
      subst hq
      unfold freeIdentity at hI ⊢
      unfold holeSum at hI ⊢
      dsimp only
      split
      · next idx =>
        obtain ⟨hi, hoff, hlen⟩ := find_space_for_hole_spec p _ off idx heq
        have hgetD : p.free_list.getD idx default = p.free_list.get ⟨idx, hi⟩ := by
          rw [List.getD_eq_getElem?_getD, List.getElem?_eq_getElem hi]
          rfl
        have hLSig : (p.free_list.get ⟨idx, hi⟩).length ≤ holeSum p :=
          mergeElem_sum_le p.free_list idx hi
        unfold holeSum at hLSig
        split
        · next hrem =>
          dsimp only
          have hset := sumLen_set p.free_list idx
            ⟨off + ((encodeKey k).length + (encodeVal v).length),
              (p.free_list.getD idx default).length -
                ((encodeKey k).length + (encodeVal v).length)⟩ hi
          rw [hgetD] at hrem
          simp only [hgetD, encodeKey_length, encodeVal_length] at *
          omega
        · next hrem =>
          dsimp only
          have herase := sumLen_eraseIdx p.free_list idx hi
          rw [hgetD] at hrem
          simp only [hgetD, encodeKey_length, encodeVal_length] at *
          omega
      · have hcontig := find_space_for_contig_spec p _ off heq
        have hHRE : SlottedPage.HEADER_SIZE ≤ p.header_region_end := by
          unfold SlottedPage.header_region_end SlottedPage.HEADER_SIZE Slot.SIZE
            FreeSpaceRegion.SIZE
          cases p.node_type <;> dsimp only <;> omega
        dsimp only
        simp only [encodeKey_length, encodeVal_length, Slot.SIZE,
          SlottedPage.HEADER_SIZE] at *
        omega

/-- Full characterization of a successful `delete` at an in-range position:
the slot is removed, `num_keys` drops, `total_free` and the hole total grow
by the freed entry length, the freed bytes join the hole coverage, and —
decisively — `free_space_end` is never moved. -/
theorem delete_spec (p : SlottedPage) (pos : Nat) (q : SlottedPage)
    (hfl : ∀ r ∈ p.free_list, p.free_space_end ≤ r.offset ∧ 0 < r.length)
    (hslots : ∀ s ∈ p.slots, p.free_space_end ≤ s.offset ∧ 0 < s.key_length + s.value_length)
    (hpos : pos < p.slots.length)
    (h : p.delete pos = .ok q) :
    q.free_space_end = p.free_space_end ∧
    q.slots = p.slots.eraseIdx pos ∧
    q.num_keys = p.num_keys - 1 ∧
    q.total_free = p.total_free +
      ((p.slots.get ⟨pos, hpos⟩).key_length + (p.slots.get ⟨pos, hpos⟩).value_length) ∧
    holeSum q = holeSum p +
      ((p.slots.get ⟨pos, hpos⟩).key_length + (p.slots.get ⟨pos, hpos⟩).value_length) ∧
    (∀ r ∈ q.free_list, q.free_space_end ≤ r.offset ∧ 0 < r.length) ∧
    (∀ x, coveredBy q.free_list x ↔ coveredBy p.free_list x ∨
      ((p.slots.get ⟨pos, hpos⟩).offset ≤ x ∧
        x < (p.slots.get ⟨pos, hpos⟩).offset +
          ((p.slots.get ⟨pos, hpos⟩).key_length +
            (p.slots.get ⟨pos, hpos⟩).value_length))) ∧
    q.data = p.data ∧ q.pointers = p.pointers ∧ q.node_type = p.node_type ∧
    q.page_size = p.page_size := by
  rw [SlottedPage.delete, if_neg (by omega), dif_pos hpos] at h
  have hq := Except.ok.inj h
  subst hq
  have hmem := List.get_mem p.slots pos hpos
  have hs := hslots _ hmem
  simp only [List.get_eq_getElem] at hs ⊢
  obtain ⟨h1, h2, h3, h4, h5, h6, h7, h8, h9, h10, h11, h12⟩ :=
    add_to_free_list_spec
      { p with slots := p.slots.eraseIdx pos
               num_keys := p.num_keys - 1
               total_free := p.total_free +
                 (p.slots[pos].key_length + p.slots[pos].value_length) }
      ⟨p.slots[pos].offset, p.slots[pos].key_length + p.slots[pos].value_length⟩
      hs.1 hs.2 hfl
  dsimp only at h1 h2 h3 h4 h5 h6 h7 h8 h9 h10 h11 h12
  unfold holeSum at h10 ⊢
  dsimp only at h10
  refine ⟨h1, h3, h4, by rw [h2], by rw [h10], ?_, h12, h5, h6, h7, h8⟩
  rw [h1]
  exact h11

theorem except_bind_ok (a : α) (f : α → Except BTreeErr β) :
    (Except.ok a >>= f) = f a := rfl

theorem except_bind_err (e : BTreeErr) (f : α → Except BTreeErr β) :
    ((Except.error e : Except BTreeErr α) >>= f) = .error e := rfl

/-- A successful `delete` preserves the free-space identity. -/
theorem delete_freeIdentity (p : SlottedPage) (pos : Nat) (q : SlottedPage)
    (hI : freeIdentity p)
    (hfl : ∀ r ∈ p.free_list, p.free_space_end ≤ r.offset ∧ 0 < r.length)
    (hslots : ∀ s ∈ p.slots, p.free_space_end ≤ s.offset ∧ 0 < s.key_length + s.value_length)
    (h : p.delete pos = .ok q) : freeIdentity q := by
  have hpos : pos < p.slots.length := by
    by_contra hge
    rcases Nat.lt_or_ge p.slots.length pos with hgt | hle2
    · rw [SlottedPage.delete, if_pos (by omega)] at h
      exact absurd h (by simp)
    · have heq : pos = p.slots.length := by omega
      rw [SlottedPage.delete, if_neg (by omega), dif_neg (by omega)] at h
      exact absurd h (by simp)
  obtain ⟨h1, _, _, h4, h5, _, _, _, _, _, _⟩ :=
    delete_spec p pos q hfl hslots hpos h
  unfold freeIdentity at hI ⊢
  rw [h1, h4, h5]
  omega

/-- A successful `update` preserves the free-space identity. -/
theorem update_freeIdentity (p : SlottedPage) (pos k : Nat) (v : List UInt8)
    (q : SlottedPage)
    (hI : freeIdentity p)
    (hfl : ∀ r ∈ p.free_list, p.free_space_end ≤ r.offset ∧ 0 < r.length)
    (hslots : ∀ s ∈ p.slots, p.free_space_end ≤ s.offset ∧ 0 < s.key_length + s.value_length)
    (h : p.update pos k v = .ok q) : freeIdentity q := by
  rw [SlottedPage.update] at h
  split at h
  · next hpos =>
    dsimp only at h
    split at h
    · next hle =>
      have hmem := List.get_mem p.slots pos hpos
      have hs := hslots _ hmem
      simp only [List.get_eq_getElem] at hs
      split at h
      · next hlo =>
        have hq := Except.ok.inj h
        subst hq
        obtain ⟨g1, g2, _, _, _, _, _, _, _, g10, _, _⟩ :=
          add_to_free_list_spec
            { p with
              data := writeBytes p.data p.slots[pos].offset (encodeKey k ++ encodeVal v)
              slots := p.slots.set pos
                { p.slots[pos] with key_length := (encodeKey k).length
                                    value_length := (encodeVal v).length } }
            ⟨p.slots[pos].offset + ((encodeKey k).length + (encodeVal v).length),
              p.slots[pos].value_length - (encodeVal v).length⟩
            (by dsimp only; omega) (by dsimp only; omega) hfl
        dsimp only at g1 g2 g10
        unfold freeIdentity at hI ⊢
        unfold holeSum at hI g10 ⊢
        dsimp only at g10 ⊢
        rw [g1, g2, g10]
        omega
      · next hlo =>
        have hq := Except.ok.inj h
        subst hq
        unfold freeIdentity at hI ⊢
        exact hI
    · next hgt =>
      cases hdel : p.delete pos with
      | error e =>
        rw [hdel, except_bind_err] at h
        exact absurd h (by simp)
      | ok p1 =>
        rw [hdel, except_bind_ok] at h
        have hI1 : freeIdentity p1 := delete_freeIdentity p pos p1 hI hfl hslots hdel
        exact insert_freeIdentity p1 pos k v q hI1 h
  · exact absurd h (by simp)

/-- A fresh page satisfies the free-space identity. -/
theorem new_freeIdentity (id : Nat) (nt : NodeType) (psz : Nat) :
    freeIdentity (SlottedPage.new id nt psz) := by
  unfold freeIdentity holeSum SlottedPage.new
  simp

/-- The right page built by `split`'s re-insert loop keeps the free-space
identity. -/
theorem split_loop_freeIdentity (p : SlottedPage) (idxs : List Nat)
    (r0 rf : SlottedPage) (h0 : freeIdentity r0)
    (h : idxs.foldlM
      (fun (right : SlottedPage) i => do
        let k ← p.read_key i
        let v ← p.read_value i
        right.insert right.slots.length k v) r0 = .ok rf) :
    freeIdentity rf := by
  induction idxs generalizing r0 with
  | nil =>
    simp only [List.foldlM_nil] at h
    have := Except.ok.inj h
    subst this
    exact h0
  | cons i idxs ih =>
    simp only [List.foldlM_cons] at h
    cases hk : p.read_key i with
    | error e =>
      rw [hk] at h
      simp only [except_bind_err] at h
      exact absurd h (by simp)
    | ok kk =>
      rw [hk] at h
      simp only [except_bind_ok] at h
      cases hv : p.read_value i with
      | error e =>
        rw [hv] at h
        simp only [except_bind_err] at h
        exact absurd h (by simp)
      | ok vv =>
        rw [hv] at h
        simp only [except_bind_ok] at h
        cases hins : r0.insert r0.slots.length kk vv with
        | error e =>
          rw [hins] at h
          simp only [except_bind_err] at h
          exact absurd h (by simp)
        | ok r1 =>
          rw [hins] at h
          simp only [except_bind_ok] at h
          exact ih r1 (insert_freeIdentity r0 r0.slots.length kk vv r1 h0 hins) h

theorem splitFreeStep_total_free (p : SlottedPage) (s : Slot) :
    (SlottedPage.splitFreeStep p s).total_free =
      (p.add_to_free_list ⟨s.offset, s.key_length + s.value_length⟩).total_free +
        (s.key_length + s.value_length) := rfl

theorem splitFreeStep_free_space_end (p : SlottedPage) (s : Slot) :
    (SlottedPage.splitFreeStep p s).free_space_end =
      (p.add_to_free_list ⟨s.offset, s.key_length + s.value_length⟩).free_space_end := rfl

theorem splitFreeStep_free_list (p : SlottedPage) (s : Slot) :
    (SlottedPage.splitFreeStep p s).free_list =
      (p.add_to_free_list ⟨s.offset, s.key_length + s.value_length⟩).free_list := rfl

/-- The fold in `split` that returns the dropped slots' byte ranges to the
left page's free list preserves the free-space identity. -/
theorem split_removed_fold_freeIdentity (removed : List Slot) :
    ∀ (cur : SlottedPage), freeIdentity cur →
    (∀ r ∈ cur.free_list, cur.free_space_end ≤ r.offset ∧ 0 < r.length) →
    (∀ s ∈ removed, cur.free_space_end ≤ s.offset ∧ 0 < s.key_length + s.value_length) →
    freeIdentity (removed.foldl SlottedPage.splitFreeStep cur) := by
  induction removed with
  | nil => intro cur hI _ _; simpa using hI
  | cons s removed ih =>
    intro cur hI hfl hs
    simp only [List.foldl_cons]
    have hsmem := hs s (List.mem_cons_self s removed)
    obtain ⟨g1, g2, _, _, _, _, _, _, _, g10, g11, _⟩ :=
      add_to_free_list_spec cur ⟨s.offset, s.key_length + s.value_length⟩
        hsmem.1 hsmem.2 hfl
    apply ih
    · unfold freeIdentity at hI ⊢
      unfold holeSum at hI g10 ⊢
      dsimp only at g10
      rw [splitFreeStep_total_free, splitFreeStep_free_space_end, splitFreeStep_free_list,
        g1, g2, g10]
      omega
    · intro r hr
      rw [splitFreeStep_free_list] at hr
      rw [splitFreeStep_free_space_end, g1]
      exact g11 r hr
    · intro t ht
      have := hs t (List.mem_cons_of_mem s ht)
      rw [splitFreeStep_free_space_end, g1]
      exact this

/-- A successful `split` leaves both the mutated left page and the returned
right page satisfying the free-space identity. -/
theorem split_freeIdentity (p : SlottedPage) (nid : Nat)
    (res : Nat × List UInt8 × SlottedPage × SlottedPage)
    (hI : freeIdentity p)
    (hfl : ∀ r ∈ p.free_list, p.free_space_end ≤ r.offset ∧ 0 < r.length)
    (hslots : ∀ s ∈ p.slots, p.free_space_end ≤ s.offset ∧ 0 < s.key_length + s.value_length)
    (h : p.split nid = .ok res) :
    freeIdentity res.2.2.1 ∧ freeIdentity res.2.2.2 := by
  rw [SlottedPage.split] at h
  cases hk : p.read_key (p.num_keys / 2) with
  | error e =>
    rw [hk] at h
    simp only [except_bind_err] at h
    exact absurd h (by simp)
  | ok mk =>
    rw [hk] at h
    simp only [except_bind_ok] at h
    cases hv : p.read_value (p.num_keys / 2) with
    | error e =>
      rw [hv] at h
      simp only [except_bind_err] at h
      exact absurd h (by simp)
    | ok mv =>
      rw [hv] at h
      simp only [except_bind_ok] at h
      cases hfold : (List.range' (p.num_keys / 2 + 1)
          (p.slots.length - (p.num_keys / 2 + 1))).foldlM
          (fun (right : SlottedPage) i => do
            let k ← p.read_key i
            let v ← p.read_value i
            right.insert right.slots.length k v)
          (SlottedPage.new nid p.node_type p.page_size) with
      | error e =>
        rw [hfold] at h
        simp only [except_bind_err] at h
        exact absurd h (by simp)
      | ok right1 =>
        rw [hfold] at h
        simp only [except_bind_ok] at h
        have hRight : freeIdentity right1 :=
          split_loop_freeIdentity p _ _ right1
            (new_freeIdentity nid p.node_type p.page_size) hfold
        have hq := Except.ok.inj h
        subst hq
        dsimp only
        constructor
        · apply split_removed_fold_freeIdentity
          · unfold freeIdentity at hI ⊢
            unfold holeSum at hI ⊢
            split <;> dsimp only <;> exact hI
          · intro r hr
            split at hr <;> dsimp only at hr ⊢ <;> exact hfl r hr
          · intro s hs
            have hmem : s ∈ p.slots := List.mem_of_mem_drop hs
            have := hslots s hmem
            split <;> dsimp only <;> exact this
        · split <;> dsimp only
          · unfold freeIdentity at hRight ⊢
            unfold holeSum at hRight ⊢
            dsimp only
            exact hRight
          · exact hRight

theorem mapM_ok_of_forall (l : List α) (f : α → Except BTreeErr β) (g : α → β)
    (h : ∀ a ∈ l, f a = .ok (g a)) : l.mapM f = .ok (l.map g) := by
  rw [← List.mapM'_eq_mapM]
  induction l with
  | nil => rfl
  | cons a l ih =>
    rw [List.mapM'_cons, h a (List.mem_cons_self a l),
      ih (fun b hb => h b (List.mem_cons_of_mem a hb))]
    rfl

theorem compactStep_total_free (p : SlottedPage) (kv : Nat × List UInt8) :
    (SlottedPage.compactStep p kv).total_free =
      p.total_free - ((encodeKey kv.1).length + (encodeVal kv.2).length) := rfl

theorem compactStep_free_space_end (p : SlottedPage) (kv : Nat × List UInt8) :
    (SlottedPage.compactStep p kv).free_space_end =
      p.free_space_end - ((encodeKey kv.1).length + (encodeVal kv.2).length) := rfl

theorem compactStep_free_list (p : SlottedPage) (kv : Nat × List UInt8) :
    (SlottedPage.compactStep p kv).free_list = p.free_list := rfl

/-- The rebuild loop of `compact` keeps `total_free` synchronized with
`free_space_end − Header::SIZE` as long as the entries (plus the 28-byte
allowance) fit under `free_space_end`. -/
theorem compactFold_inv (pairs : List (Nat × List UInt8)) :
    ∀ (cur : SlottedPage),
    cur.total_free = cur.free_space_end - Header.SIZE →
    Header.SIZE + (pairs.map (fun kv => 16 + kv.2.length)).sum ≤ cur.free_space_end →
    (pairs.foldl SlottedPage.compactStep cur).total_free =
      (pairs.foldl SlottedPage.compactStep cur).free_space_end - Header.SIZE := by
  induction pairs with
  | nil =>
    intro cur h1 _
    simpa using h1
  | cons kv pairs ih =>
    intro cur h1 h2
    simp only [List.map_cons, List.sum_cons] at h2
    simp only [List.foldl_cons]
    apply ih
    · rw [compactStep_total_free, compactStep_free_space_end]
      simp only [encodeKey_length, encodeVal_length]
      unfold Header.SIZE at h1 h2 ⊢
      omega
    · rw [compactStep_free_space_end]
      simp only [encodeKey_length, encodeVal_length]
      unfold Header.SIZE at h1 h2 ⊢
      omega

/-- A successful `compact` empties the free list and leaves
`total_free = free_space_end − Header::SIZE` (28, the *file*-header size),
provided the rebuilt entries fit under the 28-byte allowance. -/
theorem compact_spec (p q : SlottedPage)
    (hsum : Header.SIZE + compactLenSum p ≤ p.page_size % 2 ^ 16)
    (h : p.compact = .ok q) :
    q.free_list = [] ∧ q.total_free = q.free_space_end - Header.SIZE := by
  rw [SlottedPage.compact] at h
  have hmap : (List.range p.slots.length).mapM (fun idx => p.read_key_value idx) =
      .ok ((List.range p.slots.length).map (fun i =>
        (decodeKey (readBytes p.data (p.slots.getD i default).offset
            (p.slots.getD i default).key_length),
          decodeVal (readBytes p.data
            ((p.slots.getD i default).offset + (p.slots.getD i default).key_length)
            (p.slots.getD i default).value_length)))) := by
    apply mapM_ok_of_forall
    intro i hi
    have hi' : i < p.slots.length := List.mem_range.mp hi
    have hgd : p.slots.getD i default = p.slots[i] := by
      rw [List.getD_eq_getElem?_getD, List.getElem?_eq_getElem hi']
      rfl
    rw [SlottedPage.read_key_value, SlottedPage.read_key, SlottedPage.read_value,
      dif_pos hi', dif_pos hi']
    simp only [except_bind_ok, hgd]
  rw [hmap, except_bind_ok] at h
  have hq := Except.ok.inj h
  subst hq
  refine ⟨rfl, ?_⟩
  have hfold := compactFold_inv
    ((List.range p.slots.length).map (fun i =>
      (decodeKey (readBytes p.data (p.slots.getD i default).offset
          (p.slots.getD i default).key_length),
        decodeVal (readBytes p.data
          ((p.slots.getD i default).offset + (p.slots.getD i default).key_length)
          (p.slots.getD i default).value_length))))
    { p with free_space_end := p.page_size % 2 ^ 16
             total_free := p.page_size % 2 ^ 16 - Header.SIZE
             slots := [] }
    (by dsimp only)
    (by
      dsimp only
      rw [List.map_map]
      have hmm : ((List.range p.slots.length).map
          ((fun (kv : Nat × List UInt8) => 16 + kv.2.length) ∘ (fun i =>
            (decodeKey (readBytes p.data (p.slots.getD i default).offset
                (p.slots.getD i default).key_length),
              decodeVal (readBytes p.data
                ((p.slots.getD i default).offset + (p.slots.getD i default).key_length)
                (p.slots.getD i default).value_length))))).sum = compactLenSum p := rfl
      rw [hmm]
      exact hsum)
  exact hfold

/-! ## Byte-extraction lemmas for the serialization round-trip -/

theorem readBytes_zero_self (a : List UInt8) : readBytes a 0 a.length = a := by
  simp [readBytes]

theorem readBytes_append_right (a b : List UInt8) (off len : Nat)
    (h : a.length ≤ off) :
    readBytes (a ++ b) off len = readBytes b (off - a.length) len := by
  unfold readBytes
  rw [List.drop_append_eq_append_drop, List.drop_of_length_le h]
  simp

theorem readBytes_append_left (a b : List UInt8) (off len : Nat)
    (h : off + len ≤ a.length) :
    readBytes (a ++ b) off len = readBytes a off len := by
  unfold readBytes
  rw [List.drop_append_eq_append_drop, List.take_append_eq_append_take]
  have h1 : (a.drop off).length = a.length - off := List.length_drop off a
  have h2 : len - (a.drop off).length = 0 := by omega
  rw [h2]
  simp

theorem readBytes_flatten_chunk (c : Nat) (f : α → List UInt8) (l : List α)
    (hf : ∀ x ∈ l, (f x).length = c) :
    ∀ (i : Nat) (hi : i < l.length),
      readBytes (l.map f).flatten (c * i) c = f (l.get ⟨i, hi⟩) := by
  induction l with
  | nil => intro i hi; simp at hi
  | cons x xs ih =>
    intro i hi
    have hx : (f x).length = c := hf x (List.mem_cons_self x xs)
    cases i with
    | zero =>
      simp only [List.map_cons, List.flatten_cons, Nat.mul_zero, List.get]
      rw [readBytes_append_left _ _ _ _ (by omega)]
      unfold readBytes
      rw [List.drop_zero, ← hx, List.take_of_length_le (le_refl _)]
    | succ i =>
      have hi' : i < xs.length := by simpa using hi
      simp only [List.map_cons, List.flatten_cons, Nat.mul_succ]
      rw [show c * i + c = (f x).length + (c * i) by omega,
        readBytes_append_right _ _ _ _ (by omega)]
      rw [show (f x).length + c * i - (f x).length = c * i by omega]
      exact ih (fun y hy => hf y (List.mem_cons_of_mem x hy)) i hi'

theorem flatten_chunk_length (c : Nat) (f : α → List UInt8) (l : List α)
    (hf : ∀ x ∈ l, (f x).length = c) :
    (l.map f).flatten.length = c * l.length := by
  induction l with
  | nil => simp
  | cons x xs ih =>
    simp only [List.map_cons, List.flatten_cons, List.length_append,
      hf x (List.mem_cons_self x xs),
      ih (fun y hy => hf y (List.mem_cons_of_mem x hy)), List.length_cons]
    ring

theorem getD_of_readBytes_one (l : List UInt8) (off : Nat) (b : UInt8)
    (h : readBytes l off 1 = [b]) : l.getD off 0 = b := by
  unfold readBytes at h
  rw [List.getD_eq_getElem?_getD]
  cases hd : l.drop off with
  | nil => rw [hd] at h; simp at h
  | cons y t =>
    rw [hd] at h
    simp only [List.take_succ_cons, List.take_zero, List.cons.injEq] at h
    rw [show off = off + 0 by omega, ← List.getElem?_drop, hd]
    simp [h.1]

/-- `serPrefix` with its appends re-associated to the right. -/
theorem serPrefix_eq (p : SlottedPage) :
    SlottedPage.serPrefix p =
      encLE 8 p.page_id ++ ([p.node_type.toByte] ++ (encLE 2 p.num_keys ++
        (encLE 2 p.free_space_end ++ (encLE 2 p.free_list.length ++
        (encLE 2 p.total_free ++ ((p.slots.map Slot.serialize).flatten ++
        ((p.pointers.map (encLE 8)).flatten ++
          (p.free_list.map FreeSpaceRegion.serialize).flatten))))))) := by
  simp [SlottedPage.serPrefix, List.append_assoc]

theorem serPrefix_length (p : SlottedPage) :
    (SlottedPage.serPrefix p).length =
      17 + 6 * p.slots.length + 8 * p.pointers.length + 4 * p.free_list.length := by
  rw [serPrefix_eq]
  simp only [List.length_append, encLE_length, List.length_singleton,
    flatten_chunk_length 6 Slot.serialize p.slots (fun s _ => by
      simp [Slot.serialize]),
    flatten_chunk_length 8 (encLE 8) p.pointers (fun q _ => by simp),
    flatten_chunk_length 4 FreeSpaceRegion.serialize p.free_list (fun r _ => by
      simp [FreeSpaceRegion.serialize])]
  ring

theorem readBytes_front (a b : List UInt8) (len : Nat) (h : a.length = len) :
    readBytes (a ++ b) 0 len = a := by
  rw [readBytes_append_left _ _ _ _ (by omega), ← h, readBytes_zero_self]

theorem readBytes_skip (a rest : List UInt8) (off off' len : Nat)
    (h : off = a.length + off') :
    readBytes (a ++ rest) off len = readBytes rest off' len := by
  subst h
  rw [readBytes_append_right _ _ _ _ (by omega)]
  congr 1
  omega

theorem slot_serialize_length (s : Slot) : (Slot.serialize s).length = 6 := by
  simp [Slot.serialize]

theorem fsr_serialize_length (r : FreeSpaceRegion) :
    (FreeSpaceRegion.serialize r).length = 4 := by
  simp [FreeSpaceRegion.serialize]

theorem serPrefix_read_page_id (p : SlottedPage) :
    readBytes (SlottedPage.serPrefix p) 0 8 = encLE 8 p.page_id := by
  rw [serPrefix_eq, readBytes_front _ _ _ (by simp)]

theorem serPrefix_read_node_byte (p : SlottedPage) :
    readBytes (SlottedPage.serPrefix p) 8 1 = [p.node_type.toByte] := by
  rw [serPrefix_eq,
    readBytes_skip _ _ _ 0 _ (by simp),
    readBytes_front _ _ _ (by simp)]

theorem serPrefix_read_num_keys (p : SlottedPage) :
    readBytes (SlottedPage.serPrefix p) 9 2 = encLE 2 p.num_keys := by
  rw [serPrefix_eq,
    readBytes_skip _ _ _ 1 _ (by simp),
    readBytes_skip _ _ _ 0 _ (by simp),
    readBytes_front _ _ _ (by simp)]

theorem serPrefix_read_fse (p : SlottedPage) :
    readBytes (SlottedPage.serPrefix p) 11 2 = encLE 2 p.free_space_end := by
  rw [serPrefix_eq,
    readBytes_skip _ _ _ 3 _ (by simp),
    readBytes_skip _ _ _ 2 _ (by simp),
    readBytes_skip _ _ _ 0 _ (by simp),
    readBytes_front _ _ _ (by simp)]

theorem serPrefix_read_flc (p : SlottedPage) :
    readBytes (SlottedPage.serPrefix p) 13 2 = encLE 2 p.free_list.length := by
  rw [serPrefix_eq,
    readBytes_skip _ _ _ 5 _ (by simp),
    readBytes_skip _ _ _ 4 _ (by simp),
    readBytes_skip _ _ _ 2 _ (by simp),
    readBytes_skip _ _ _ 0 _ (by simp),
    readBytes_front _ _ _ (by simp)]

theorem serPrefix_read_total_free (p : SlottedPage) :
    readBytes (SlottedPage.serPrefix p) 15 2 = encLE 2 p.total_free := by
  rw [serPrefix_eq,
    readBytes_skip _ _ _ 7 _ (by simp),
    readBytes_skip _ _ _ 6 _ (by simp),
    readBytes_skip _ _ _ 4 _ (by simp),
    readBytes_skip _ _ _ 2 _ (by simp),
    readBytes_skip _ _ _ 0 _ (by simp),
    readBytes_front _ _ _ (by simp)]

theorem serPrefix_read_slot (p : SlottedPage) (i : Nat) (hi : i < p.slots.length) :
    readBytes (SlottedPage.serPrefix p) (17 + 6 * i) 6 =
      Slot.serialize (p.slots.get ⟨i, hi⟩) := by
  rw [serPrefix_eq,
    readBytes_skip _ _ _ (9 + 6 * i) _ (by simp; omega),
    readBytes_skip _ _ _ (8 + 6 * i) _ (by simp; omega),
    readBytes_skip _ _ _ (6 + 6 * i) _ (by simp; omega),
    readBytes_skip _ _ _ (4 + 6 * i) _ (by simp; omega),
    readBytes_skip _ _ _ (2 + 6 * i) _ (by simp; omega),
    readBytes_skip _ _ _ (6 * i) _ (by simp),
    readBytes_append_left _ _ _ _ (by
      rw [flatten_chunk_length 6 Slot.serialize p.slots
        (fun s _ => slot_serialize_length s)]
      omega)]
  exact readBytes_flatten_chunk 6 Slot.serialize p.slots
    (fun s _ => slot_serialize_length s) i hi

theorem serPrefix_read_pointer (p : SlottedPage) (j : Nat)
    (hj : j < p.pointers.length) :
    readBytes (SlottedPage.serPrefix p) (17 + 6 * p.slots.length + 8 * j) 8 =
      encLE 8 (p.pointers.get ⟨j, hj⟩) := by
  rw [serPrefix_eq,
    readBytes_skip _ _ _ (9 + 6 * p.slots.length + 8 * j) _ (by simp; omega),
    readBytes_skip _ _ _ (8 + 6 * p.slots.length + 8 * j) _ (by simp; omega),
    readBytes_skip _ _ _ (6 + 6 * p.slots.length + 8 * j) _ (by simp; omega),
    readBytes_skip _ _ _ (4 + 6 * p.slots.length + 8 * j) _ (by simp; omega),
    readBytes_skip _ _ _ (2 + 6 * p.slots.length + 8 * j) _ (by simp; omega),
    readBytes_skip _ _ _ (6 * p.slots.length + 8 * j) _ (by simp; omega),
    readBytes_skip _ _ _ (8 * j) _ (by
      rw [flatten_chunk_length 6 Slot.serialize p.slots
        (fun s _ => slot_serialize_length s)]),
    readBytes_append_left _ _ _ _ (by
      rw [flatten_chunk_length 8 (encLE 8) p.pointers (fun q _ => by simp)]
      omega)]
  exact readBytes_flatten_chunk 8 (encLE 8) p.pointers (fun q _ => by simp) j hj

theorem serPrefix_read_free (p : SlottedPage) (m : Nat)
    (hm : m < p.free_list.length) :
    readBytes (SlottedPage.serPrefix p)
        (17 + 6 * p.slots.length + 8 * p.pointers.length + 4 * m) 4 =
      FreeSpaceRegion.serialize (p.free_list.get ⟨m, hm⟩) := by
  rw [serPrefix_eq,
    readBytes_skip _ _ _ (9 + 6 * p.slots.length + 8 * p.pointers.length + 4 * m) _
      (by simp; omega),
    readBytes_skip _ _ _ (8 + 6 * p.slots.length + 8 * p.pointers.length + 4 * m) _
      (by simp; omega),
    readBytes_skip _ _ _ (6 + 6 * p.slots.length + 8 * p.pointers.length + 4 * m) _
      (by simp; omega),
    readBytes_skip _ _ _ (4 + 6 * p.slots.length + 8 * p.pointers.length + 4 * m) _
      (by simp; omega),
    readBytes_skip _ _ _ (2 + 6 * p.slots.length + 8 * p.pointers.length + 4 * m) _
      (by simp; omega),
    readBytes_skip _ _ _ (6 * p.slots.length + 8 * p.pointers.length + 4 * m) _
      (by simp; omega),
    readBytes_skip _ _ _ (8 * p.pointers.length + 4 * m) _ (by
      rw [flatten_chunk_length 6 Slot.serialize p.slots
        (fun s _ => slot_serialize_length s)]
      omega),
    readBytes_skip _ _ _ (4 * m) _ (by
      rw [flatten_chunk_length 8 (encLE 8) p.pointers (fun q _ => by simp)])]
  exact readBytes_flatten_chunk 4 FreeSpaceRegion.serialize p.free_list
    (fun r _ => fsr_serialize_length r) m hm

theorem slot_roundtrip (s : Slot) (h1 : s.offset < 2 ^ 16) (h2 : s.key_length < 2 ^ 16)
    (h3 : s.value_length < 2 ^ 16) : Slot.deserialize (Slot.serialize s) = s := by
  obtain ⟨o, k, v⟩ := s
  simp only at h1 h2 h3
  have h256 : (2 : Nat) ^ 16 = 256 ^ 2 := by norm_num
  unfold Slot.deserialize Slot.serialize
  simp only [List.append_assoc]
  rw [readBytes_front _ _ _ (by simp),
    readBytes_skip _ _ _ 0 _ (by simp), readBytes_front _ _ _ (by simp),
    readBytes_skip _ _ _ 2 _ (by simp), readBytes_skip _ _ _ 0 _ (by simp),
    ← List.append_nil (encLE 2 v), readBytes_front _ _ _ (by simp)]
  simp only [decLE_encLE 2 o (h256 ▸ h1), decLE_encLE 2 k (h256 ▸ h2),
    decLE_encLE 2 v (h256 ▸ h3)]

theorem fsr_roundtrip (r : FreeSpaceRegion) (h1 : r.offset < 2 ^ 16)
    (h2 : r.length < 2 ^ 16) :
    FreeSpaceRegion.deserialize (FreeSpaceRegion.serialize r) = r := by
  obtain ⟨o, l⟩ := r
  simp only at h1 h2
  have h256 : (2 : Nat) ^ 16 = 256 ^ 2 := by norm_num
  unfold FreeSpaceRegion.deserialize FreeSpaceRegion.serialize
  rw [readBytes_front _ _ _ (by simp),
    readBytes_skip _ _ _ 0 _ (by simp),
    ← List.append_nil (encLE 2 l), readBytes_front _ _ _ (by simp)]
  simp only [decLE_encLE 2 o (h256 ▸ h1), decLE_encLE 2 l (h256 ▸ h2)]

theorem header_roundtrip (h : Header) (hL : headerLegal h)
    (hm : h.magic_number ≠ 0) :
    Header.deserialize (Header.serialize h) = .ok h := by
  obtain ⟨m, v, ps, rp, pc⟩ := h
  obtain ⟨hb1, hb2, hb3, hb4, hb5⟩ := hL
  simp only at hb1 hb2 hb3 hb4 hb5 hm
  have h256 : (2 : Nat) ^ 16 = 256 ^ 2 := by norm_num
  have h264 : (2 : Nat) ^ 64 = 256 ^ 8 := by norm_num
  have hlen : (Header.serialize ⟨m, v, ps, rp, pc⟩).length = 28 := by
    simp [Header.serialize]
  unfold Header.deserialize
  rw [if_neg (by rw [hlen]; unfold Header.SIZE; omega)]
  unfold Header.serialize
  simp only [List.append_assoc]
  rw [readBytes_front _ _ _ (by simp)]
  rw [decLE_encLE 2 m (h256 ▸ hb1), if_neg hm]
  rw [readBytes_skip _ _ _ 0 _ (by simp), readBytes_front _ _ _ (by simp),
    readBytes_skip _ _ _ 2 _ (by simp), readBytes_skip _ _ _ 0 _ (by simp),
    readBytes_front _ _ _ (by simp),
    readBytes_skip _ _ _ 10 _ (by simp), readBytes_skip _ _ _ 8 _ (by simp),
    readBytes_skip _ _ _ 0 _ (by simp), readBytes_front _ _ _ (by simp),
    readBytes_skip _ _ _ 18 _ (by simp), readBytes_skip _ _ _ 16 _ (by simp),
    readBytes_skip _ _ _ 8 _ (by simp), readBytes_skip _ _ _ 0 _ (by simp),
    ← List.append_nil (encLE 8 pc), readBytes_front _ _ _ (by simp)]
  simp only [decLE_encLE 2 v (h256 ▸ hb2), decLE_encLE 8 ps (h264 ▸ hb3),
    decLE_encLE 8 rp (h264 ▸ hb4), decLE_encLE 8 pc (h264 ▸ hb5)]

/-- On a legal page, `serialize` succeeds and its output is the prefix bytes,
zero padding up to `free_space_end`, then the live data region. -/
theorem serialize_ok (p : SlottedPage) (hL : pageLegal p) :
    SlottedPage.serialize p = .ok (SlottedPage.serPrefix p ++
      (List.replicate (p.free_space_end - (SlottedPage.serPrefix p).length) 0 ++
        p.data.drop p.free_space_end)) := by
  obtain ⟨hdata, _, _, _, hpre, hfse, _⟩ := hL
  unfold SlottedPage.serialize
  dsimp only
  rw [if_neg (by omega), if_neg (by omega)]
  rw [List.take_append_eq_append_take, List.take_of_length_le (by omega),
    List.take_replicate]
  have hmin : min (p.free_space_end - (SlottedPage.serPrefix p).length)
      (p.page_size - (SlottedPage.serPrefix p).length) =
      p.free_space_end - (SlottedPage.serPrefix p).length := by omega
  rw [hmin, List.append_assoc]

/-- Reads above `free_space_end` see the original data region through the
serialized buffer. -/
theorem serialize_buf_high (p : SlottedPage) (hL : pageLegal p) (off len : Nat)
    (hoff : p.free_space_end ≤ off) :
    readBytes (SlottedPage.serPrefix p ++
      (List.replicate (p.free_space_end - (SlottedPage.serPrefix p).length) 0 ++
        p.data.drop p.free_space_end)) off len = readBytes p.data off len := by
  obtain ⟨hdata, _, _, _, hpre, hfse, _⟩ := hL
  have hAlen : (SlottedPage.serPrefix p ++
      List.replicate (p.free_space_end - (SlottedPage.serPrefix p).length) 0).length =
      p.free_space_end := by
    simp only [List.length_append, List.length_replicate]
    omega
  rw [← List.append_assoc,
    readBytes_append_right _ _ _ _ (by rw [hAlen]; omega)]
  unfold readBytes
  rw [hAlen, List.drop_drop]
  congr 2
  omega

set_option maxHeartbeats 1000000

/-- Deserializing the serialized buffer of a legal page restores every field
(the raw buffer itself becomes the new data array). -/
theorem deserialize_serialize (p : SlottedPage) (hL : pageLegal p)
    (buf : List UInt8)
    (hbuf : buf = SlottedPage.serPrefix p ++
      (List.replicate (p.free_space_end - (SlottedPage.serPrefix p).length) 0 ++
        p.data.drop p.free_space_end)) :
    SlottedPage.deserialize buf p.page_size = some { p with data := buf } := by
  have h256 : (2 : Nat) ^ 16 = 256 ^ 2 := by norm_num
  have h264 : (2 : Nat) ^ 64 = 256 ^ 8 := by norm_num
  obtain ⟨hdata, hkeys, hleafp, hintp, hpreF, hfseP, hid, hnk16, hfse16, hflc16,
    htf16, hslotsB, hptrsB, hflB⟩ := hL
  have hpl : (SlottedPage.serPrefix p).length =
      17 + 6 * p.slots.length + 8 * p.pointers.length + 4 * p.free_list.length :=
    serPrefix_length p
  have hlow : ∀ off len, off + len ≤ (SlottedPage.serPrefix p).length →
      readBytes buf off len = readBytes (SlottedPage.serPrefix p) off len := by
    intro off len h
    rw [hbuf]
    exact readBytes_append_left _ _ _ _ h
  have hidr : decLE (readBytes buf 0 8) = p.page_id := by
    rw [hlow 0 8 (by omega), serPrefix_read_page_id,
      decLE_encLE 8 _ (h264 ▸ hid)]
  have hnkr : decLE (readBytes buf 9 2) = p.num_keys := by
    rw [hlow 9 2 (by omega), serPrefix_read_num_keys,
      decLE_encLE 2 _ (h256 ▸ hnk16)]
  have hfser : decLE (readBytes buf 11 2) = p.free_space_end := by
    rw [hlow 11 2 (by omega), serPrefix_read_fse,
      decLE_encLE 2 _ (h256 ▸ hfse16)]
  have hflcr : decLE (readBytes buf 13 2) = p.free_list.length := by
    rw [hlow 13 2 (by omega), serPrefix_read_flc,
      decLE_encLE 2 _ (h256 ▸ hflc16)]
  have htfr : decLE (readBytes buf 15 2) = p.total_free := by
    rw [hlow 15 2 (by omega), serPrefix_read_total_free,
      decLE_encLE 2 _ (h256 ▸ htf16)]
  have hnode : buf.getD 8 0 = p.node_type.toByte :=
    getD_of_readBytes_one _ _ _
      (by rw [hlow 8 1 (by omega), serPrefix_read_node_byte])
  have hfb : NodeType.fromByte p.node_type.toByte = some p.node_type := by
    cases p.node_type <;> rfl
  have hslots : (List.range p.slots.length).map
      (fun i => Slot.deserialize (readBytes buf (17 + 6 * i) 6)) = p.slots := by
    apply List.ext_getElem
    · simp
    · intro i h1 h2
      simp only [List.getElem_map, List.getElem_range]
      have hi : i < p.slots.length := by simpa using h1
      rw [hlow (17 + 6 * i) 6 (by rw [hpl]; omega), serPrefix_read_slot p i hi]
      obtain ⟨b1, b2, b3, _⟩ := hslotsB _ (List.get_mem p.slots i hi)
      rw [slot_roundtrip _ b1 b2 b3]
      simp [List.get_eq_getElem]
  have hptr : ∀ (j : Nat) (hj : j < p.pointers.length),
      decLE (readBytes buf (17 + 6 * p.slots.length + 8 * j) 8) =
        p.pointers.get ⟨j, hj⟩ := by
    intro j hj
    rw [hlow _ 8 (by rw [hpl]; omega), serPrefix_read_pointer p j hj,
      decLE_encLE 8 _ (h264 ▸ hptrsB _ (List.get_mem p.pointers j hj))]
  have hfl : (List.range p.free_list.length).map
      (fun m => FreeSpaceRegion.deserialize (readBytes buf
        (17 + 6 * p.slots.length + 8 * p.pointers.length + 4 * m) 4)) =
      p.free_list := by
    apply List.ext_getElem
    · simp
    · intro m h1 h2
      simp only [List.getElem_map, List.getElem_range]
      have hm : m < p.free_list.length := by simpa using h1
      rw [hlow _ 4 (by rw [hpl]; omega), serPrefix_read_free p m hm]
      obtain ⟨b1, b2⟩ := hflB _ (List.get_mem p.free_list m hm)
      rw [fsr_roundtrip _ b1 b2]
      simp [List.get_eq_getElem]
  unfold SlottedPage.deserialize
  rw [hnode, hfb]
  dsimp only
  rw [hnkr, hfser, hflcr, htfr, hidr, hkeys, hslots]
  cases hnt : p.node_type with
  | LEAF =>
    have hpe : p.pointers = [] := hleafp hnt
    dsimp only
    simp only [hpe, List.length_nil, Nat.mul_zero, Nat.add_zero] at hfl
    simp only [Nat.mul_zero, Nat.add_zero, List.range_zero, List.map_nil, hfl, hpe]
  | INTERNAL =>
    have hpl2 : p.pointers.length = p.slots.length + 1 := by
      rw [hintp hnt, hkeys]
    dsimp only
    rw [show (List.range p.free_list.length).map
        (fun i => FreeSpaceRegion.deserialize (readBytes buf
          (17 + 6 * p.slots.length + 8 * (p.slots.length + 1) + 4 * i) 4)) =
        p.free_list from by rw [← hpl2]; exact hfl]
    rw [show (List.range (p.slots.length + 1)).map
        (fun j => decLE (readBytes buf (17 + 6 * p.slots.length + 8 * j) 8)) =
        p.pointers from ?_]
    apply List.ext_getElem
    · simp only [List.length_map, List.length_range]
      omega
    · intro j h1 h2
      simp only [List.getElem_map, List.getElem_range]
      have hj : j < p.pointers.length := by omega
      have hpj := hptr j hj
      simp only [List.get_eq_getElem] at hpj
      exact hpj

/-- Key/value entries stay readable through the serialize/deserialize cycle:
slot offsets point above `free_space_end`, where the serialized buffer and
the original data array agree. -/
theorem roundtrip_read_key_value (p : SlottedPage) (hL : pageLegal p)
    (buf : List UInt8)
    (hbuf : buf = SlottedPage.serPrefix p ++
      (List.replicate (p.free_space_end - (SlottedPage.serPrefix p).length) 0 ++
        p.data.drop p.free_space_end)) (i : Nat) :
    SlottedPage.read_key_value { p with data := buf } i =
      SlottedPage.read_key_value p i := by
  unfold SlottedPage.read_key_value SlottedPage.read_key SlottedPage.read_value
  dsimp only
  by_cases h : i < p.slots.length
  · have hoff : p.free_space_end ≤ (p.slots.get ⟨i, h⟩).offset := by
      exact (hL.2.2.2.2.2.2.2.2.2.2.2.1 (p.slots.get ⟨i, h⟩)
        (List.get_mem p.slots i h)).2.2.2
    simp only [List.get_eq_getElem] at hoff
    rw [dif_pos h, dif_pos h, dif_pos h, dif_pos h]
    rw [hbuf, serialize_buf_high p hL _ _ hoff,
      serialize_buf_high p hL _ _ (by omega)]
  · rw [dif_neg h, dif_neg h, dif_neg h, dif_neg h]

/-! ## Claim C10: bounds behaviour of `SlottedPage::delete` -/

/-- C10: `SlottedPage::delete(pos)` returns the `KeyNotFound` error exactly
when `pos > num_keys`; for `pos = num_keys` the guard passes and the
subsequent `slots.remove(pos)` panics (out-of-bounds index); only under
`pos < num_keys` does `delete` return normally. -/
theorem delete_bounds_trichotomy (p : SlottedPage) (pos : Nat)
    (hn : p.num_keys = p.slots.length) :
    (p.delete pos = .error (.keyNotFound "") ↔ p.num_keys < pos) ∧
    (pos = p.num_keys → p.delete pos = .error .panicked) ∧
    (pos < p.num_keys → ∃ q, p.delete pos = .ok q) := by
  rcases Nat.lt_trichotomy pos p.slots.length with hlt | heq | hgt
  · have hdel : ∃ q, p.delete pos = .ok q := by
      rw [SlottedPage.delete, if_neg (by omega), dif_pos hlt]
      exact ⟨_, rfl⟩
    obtain ⟨q, hq⟩ := hdel
    refine ⟨⟨fun h => absurd (hq ▸ h) (by simp), fun h => absurd h (by omega)⟩,
      fun h => absurd h (by omega), fun _ => ⟨q, hq⟩⟩
  · have hdel : p.delete pos = .error .panicked := by
      rw [SlottedPage.delete, if_neg (by omega), dif_neg (by omega)]
    refine ⟨⟨fun h => absurd (hdel ▸ h) (by simp), fun h => absurd h (by omega)⟩,
      fun _ => hdel, fun h => absurd h (by omega)⟩
  · have hdel : p.delete pos = .error (.keyNotFound "") := by
      rw [SlottedPage.delete, if_pos (by omega)]
    exact ⟨⟨fun _ => by omega, fun _ => hdel⟩,
      fun h => absurd h (by omega), fun h => absurd h (by omega)⟩

/-- C10 witness: on a fresh empty page, `delete 0` (with `pos = num_keys = 0`)
panics rather than returning the `KeyNotFound` error. -/
theorem delete_bounds_trichotomy_witness :
    (SlottedPage.new 0 .LEAF 64).delete 0 = .error .panicked :=
  (delete_bounds_trichotomy (SlottedPage.new 0 .LEAF 64) 0 (by decide)).2.1 rfl

/-! ## Claim C6: what `can_insert` measures -/

set_option maxRecDepth 1000000

/-- C6 counterexample: a reachable page (three inserts, then delete of the
middle entry, leaving one free-list hole) on which `can_insert 8 2` returns
`true` although `Slot::SIZE + 8 + 2 = 16` exceeds
`free_space_end − header_region_end = 45 − 33 = 12`; `can_insert` does not
count the free-list array bytes as used. -/
theorem can_insert_spec_mismatch :
    (c6Page.map fun p =>
      (p.can_insert 8 2, specCanInsert p 8 2, p.free_space_end, p.header_region_end)) =
      .ok (true, false, 45, 33) := by decide

/-- C6 (amended): `can_insert(key_len, value_len)` returns true iff
`Slot::SIZE + key_len + value_len` (plus 8 for a child pointer on an INTERNAL
page) is at most `free_space_end − (17 + num_slots × 6 + pointers_len × 8)`:
the contiguous-region check uses the actual pointer-array length and does
*not* count the free-list array bytes as used. -/
theorem can_insert_iff_contiguous (p : SlottedPage) (key_len value_len : Nat)
    (hfse : p.free_space_end ≤ p.page_size) :
    p.can_insert key_len value_len = true ↔
      Slot.SIZE + key_len + value_len +
          (match p.node_type with | .LEAF => 0 | .INTERNAL => 8) ≤
        p.free_space_end -
          (SlottedPage.HEADER_SIZE + p.slots.length * Slot.SIZE +
            p.pointers.length * 8) := by
  cases hnt : p.node_type <;>
    simp only [SlottedPage.can_insert, SlottedPage.get_free_space, hnt,
      decide_eq_true_eq, Slot.SIZE, SlottedPage.HEADER_SIZE] <;>
    omega

/-- C6 witness for the amended statement, at a fresh 64-byte leaf page. -/
theorem can_insert_iff_contiguous_witness :
    (SlottedPage.new 0 .LEAF 64).free_space_end ≤
        (SlottedPage.new 0 .LEAF 64).page_size ∧
      ((SlottedPage.new 0 .LEAF 64).can_insert 8 2 = true ↔
        Slot.SIZE + 8 + 2 + 0 ≤
          (SlottedPage.new 0 .LEAF 64).free_space_end -
            (SlottedPage.HEADER_SIZE +
              (SlottedPage.new 0 .LEAF 64).slots.length * Slot.SIZE +
              (SlottedPage.new 0 .LEAF 64).pointers.length * 8)) :=
  ⟨by decide, can_insert_iff_contiguous (SlottedPage.new 0 .LEAF 64) 8 2 (by decide)⟩

/-! ## Claim C5: which page size governs an existing file -/

/-- C5 counterexample: opening a file whose persisted header records
`page_size = 64` with the argument `page_size = 32` keeps 64 in the in-memory
header but 32 in the page manager, and `from_pageid 1 = 1 * 32 + 28 = 60`,
not the `1 * 64 + 28 = 92` the persisted size would give: byte offsets are
computed from the argument, not from the persisted page size. -/
theorem open_mismatched_page_size_uses_argument_offsets :
    (BTree.new c5File 32).map
        (fun bt => (bt.header.page_size, bt.page_manager.page_size,
          bt.page_manager.from_pageid 1)) = .ok (64, 32, 60) ∧ (60 : Nat) ≠ 92 := by
  constructor
  · decide
  · decide

/-- C5 (amended): on an existing file whose header deserializes with a
non-zero page count, `BTree::new` keeps the persisted header (so the
in-memory `header.page_size`, which sizes deserialized pages, is the
persisted one), but the `PageManager` — constructed before the header is
read and never updated — retains the `page_size` *argument*, so every byte
offset `from_pageid(id) = id × page_size_argument + 28` and every read/write
buffer size use the argument, not the persisted page size. -/
theorem btree_new_existing_file_page_sizes (file : List UInt8) (page_size : Nat)
    (h : Header)
    (hread : Header.deserialize (PageManager.new file page_size Header.SIZE).read_header
      = .ok h)
    (hcount : h.page_count ≠ 0) :
    BTree.new file page_size =
        .ok { header := h, page_manager := PageManager.new file page_size Header.SIZE } ∧
      (PageManager.new file page_size Header.SIZE).page_size = page_size ∧
      ∀ id, (PageManager.new file page_size Header.SIZE).from_pageid id =
        id * page_size + Header.SIZE := by
  refine ⟨?_, rfl, fun id => rfl⟩
  rw [BTree.new]
  have hrh : BTree.read_header (PageManager.new file page_size Header.SIZE) = .ok h :=
    hread
  rw [hrh]
  have hempty : h.pages_empty = false := by
    simp [Header.pages_empty, hcount]
  simp [hempty]

/-- C5 witness: the amended statement applied to the concrete mismatched
open of `c5File` with argument 32. -/
theorem btree_new_existing_file_page_sizes_witness :
    BTree.new c5File 32 =
      .ok { header := Header.new 1 0 64 0 1
            page_manager := PageManager.new c5File 32 Header.SIZE } :=
  (btree_new_existing_file_page_sizes c5File 32 (Header.new 1 0 64 0 1)
    (by decide) (by decide)).1

/-! ## Claim C2: header persistence across a root split -/

/-- C2: after the root-splitting third insert of `c2Run`, the live handle
answers `search 3` with its value and its in-memory root is page 2, but the
header persisted at file offset 0 still records `root_page_id = 0` (it was
last written inside `create_page`, before the new root id existed), and
reopening the same file loses key 3: `BTree::insert` returns on the
root-split path without writing the header. -/
theorem root_split_leaves_stale_header_on_disk :
    (do let bt ← c2Run; bt.search 10 3) = .ok [3] ∧
    c2Run.map (fun bt => bt.header.root_page_id) = .ok 2 ∧
    (do let bt ← c2Run; BTree.read_header bt.page_manager) =
      .ok (Header.new 1 0 64 0 4) ∧
    (do let bt ← c2Reopened; bt.search 10 3) = .error (.keyNotFound "3") := by
  refine ⟨by decide, by decide, by decide, by decide⟩

/-! ## Claim C3: re-inserting a key that was promoted into an internal page -/

/-- C3: in `c3Run` the fourth insert promotes key 2 (value `[2]`) into the
internal root; re-inserting key 2 with value `[9]` then descends into a leaf
without checking the internal page, leaving *two* slots that hold key 2 (the
root separator with the stale value `[2]` and a leaf slot with `[9]`), and
`search 2` returns the stale `[2]`, not `[9]`. -/
theorem reinsert_promoted_key_duplicates_and_staleness :
    (do let bt ← c3Run; bt.search 10 2) = .ok [2] ∧
    c3Run.map (fun bt => bt.header.root_page_id) = .ok 2 ∧
    (do let bt ← c3Run; let p ← bt.read_page 2; p.read_keys) = .ok [1, 2] ∧
    (do let bt ← c3Run; let p ← bt.read_page 2; p.read_value 1) = .ok [2] ∧
    (do let bt ← c3Run; let p ← bt.read_page 3; p.read_keys) = .ok [2] ∧
    (do let bt ← c3Run; let p ← bt.read_page 3; p.read_value 0) = .ok [9] := by
  refine ⟨by decide, by decide, by decide, by decide, by decide, by decide⟩

/-! ## Claim C4: `PageOverflow` escaping `BTree::insert` -/

/-- C4: the 33-byte encoded entry `(1, [7] × 25)` fits an empty 64-byte page
(the direct page-level insert succeeds), yet `BTree::insert` on a tree whose
leaf already holds key 1 returns `Err(PageOverflow)` to its caller: the
update path for an existing key deletes and reinserts, and the reinsert's
overflow propagates out of `BTree::insert` instead of being recovered by a
split. -/
theorem update_page_overflow_escapes_insert :
    c4Run = .error (.pageOverflow 0) ∧
    ((SlottedPage.new 0 .LEAF 64).insert 0 1 (List.replicate 25 7)).map
      (fun p => p.num_keys) = .ok 1 := by
  refine ⟨by decide, by decide⟩

/-! ## Claim C7: the free-space accounting identity -/

/-- C7 counterexample: after a single insert into a fresh 64-byte page,
`total_free = 30`, which is `(free_space_end − 17) + Σ holes = (47 − 17) + 0`
(the fixed 17-byte page header), while the claim's formula
`(free_space_end − header_region_end) + Σ holes = (47 − 23) + 0` predicts
`24 ≠ 30`: the slot-array bytes are not deducted from `total_free`. -/
theorem free_identity_uses_fixed_header_size :
    (c7Page.map fun p =>
      (p.total_free,
        (p.free_space_end - p.header_region_end) + holeSum p,
        (p.free_space_end - SlottedPage.HEADER_SIZE) + holeSum p)) =
      .ok (30, 24, 30) ∧ (30 : Nat) ≠ 24 := by
  refine ⟨by decide, by decide⟩

/-- C7 (corrected): on a well-formed page, every successful `insert`,
`update`, `delete` and `split` maintains
`total_free = (free_space_end − 17) + Σ holes.length`, where 17 is the fixed
`SlottedPage::HEADER_SIZE` (the claim's `header_region_end`, which also
deducts the slot/pointer/free-list array bytes, does not hold — see the
counterexample); and a successful `compact`, instead of maintaining that
identity, empties the free list and resets
`total_free = free_space_end − Header::SIZE` with the 28-byte *file*-header
constant (provided the rebuilt entries fit under that allowance). -/
theorem free_space_identity_after_mutations :
    (∀ p pos k v q, WFfree p → SlottedPage.insert p pos k v = .ok q →
      freeIdentity q) ∧
    (∀ p pos k v q, WFfree p → SlottedPage.update p pos k v = .ok q →
      freeIdentity q) ∧
    (∀ p pos q, WFfree p → SlottedPage.delete p pos = .ok q →
      freeIdentity q) ∧
    (∀ p nid res, WFfree p → SlottedPage.split p nid = .ok res →
      freeIdentity res.2.2.1 ∧ freeIdentity res.2.2.2) ∧
    (∀ p q, Header.SIZE + compactLenSum p ≤ p.page_size % 2 ^ 16 →
      SlottedPage.compact p = .ok q →
      q.free_list = [] ∧ q.total_free = q.free_space_end - Header.SIZE) := by
  refine ⟨?_, ?_, ?_, ?_, ?_⟩
  · intro p pos k v q hW h
    exact insert_freeIdentity p pos k v q hW.1 h
  · intro p pos k v q hW h
    exact update_freeIdentity p pos k v q hW.1 hW.2.1 hW.2.2 h
  · intro p pos q hW h
    exact delete_freeIdentity p pos q hW.1 hW.2.1 hW.2.2 h
  · intro p nid res hW h
    exact split_freeIdentity p nid res hW.1 hW.2.1 hW.2.2 h
  · intro p q hsum h
    exact compact_spec p q hsum h

/-- C7 witness: the insert conjunct applied to the fresh 64-byte page and
the concrete result `c7q`. -/
theorem free_space_identity_after_mutations_witness :
    WFfree (SlottedPage.new 0 .LEAF 64) ∧ freeIdentity c7q := by
  refine ⟨?_, ?_⟩
  · unfold WFfree freeIdentity holeSum
    decide
  · exact free_space_identity_after_mutations.1 (SlottedPage.new 0 .LEAF 64)
      0 1 [1] c7q (by unfold WFfree freeIdentity holeSum; decide) (by decide)

/-! ## Claim C8: what `delete` does to the free structures -/

/-- C8 counterexample: `c8q` deletes the sole entry of a one-entry page, so
the freed 17-byte range starts exactly at `free_space_end = 47` (it abuts
the contiguous region).  The claim says `free_space_end` advances upward to
`47 + 17 = 64`; instead it stays `47` and the range is recorded as the hole
`(47, 17)`: `add_to_free_list`'s merge branch tests
`region.offset + region.length == free_space_end`, which a freed range
(whose offset is at least `free_space_end`) can never satisfy. -/
theorem delete_leaves_hole_at_free_space_end :
    (c8Page.map fun p => (p.free_space_end, p.free_list)) =
      .ok (47, [⟨47, 17⟩]) ∧ (47 : Nat) ≠ 64 := by
  refine ⟨by decide, by decide⟩

/-- C8 (corrected): on a well-formed page, `delete pos` with
`pos < slots.len()` removes slot `pos`, decrements `num_keys`, adds the
deleted entry's `key_length + value_length` to `total_free` and to the hole
total, records exactly the freed byte range in the free list (coalescing, the
union of covered bytes grows by precisely that range), and keeps every hole
at or above `free_space_end` — but `free_space_end` itself NEVER changes:
even a freed range that abuts the contiguous region is left as a hole rather
than merged by advancing `free_space_end` upward. -/
theorem delete_spec_corrected (p : SlottedPage) (pos : Nat) (q : SlottedPage)
    (hW : WFfree p) (hpos : pos < p.slots.length)
    (h : SlottedPage.delete p pos = .ok q) :
    q.free_space_end = p.free_space_end ∧
    q.slots = p.slots.eraseIdx pos ∧
    q.num_keys = p.num_keys - 1 ∧
    q.total_free = p.total_free +
      ((p.slots.get ⟨pos, hpos⟩).key_length + (p.slots.get ⟨pos, hpos⟩).value_length) ∧
    holeSum q = holeSum p +
      ((p.slots.get ⟨pos, hpos⟩).key_length + (p.slots.get ⟨pos, hpos⟩).value_length) ∧
    (∀ r ∈ q.free_list, q.free_space_end ≤ r.offset ∧ 0 < r.length) ∧
    (∀ x, coveredBy q.free_list x ↔ coveredBy p.free_list x ∨
      ((p.slots.get ⟨pos, hpos⟩).offset ≤ x ∧
        x < (p.slots.get ⟨pos, hpos⟩).offset +
          ((p.slots.get ⟨pos, hpos⟩).key_length +
            (p.slots.get ⟨pos, hpos⟩).value_length))) := by
  obtain ⟨h1, h2, h3, h4, h5, h6, h7, _, _, _, _⟩ :=
    delete_spec p pos q hW.2.1 hW.2.2 hpos h
  exact ⟨h1, h2, h3, h4, h5, h6, h7⟩

/-- C8 witness: the corrected statement applied to the deletion of the sole
entry of the concrete one-entry page `c7q` (result `c8q`): the slot is gone,
`num_keys` drops to 0, `total_free` grows by the entry's 17 bytes, and
`free_space_end` stays 47. -/
theorem delete_spec_corrected_witness :
    WFfree c7q ∧ 0 < c7q.slots.length ∧ c7q.delete 0 = .ok c8q ∧
    c8q.free_space_end = c7q.free_space_end ∧
    c8q.num_keys = c7q.num_keys - 1 := by
  refine ⟨?_, by decide, by decide, ?_, ?_⟩
  · unfold WFfree freeIdentity holeSum
    decide
  · exact (delete_spec_corrected c7q 0 c8q
      (by unfold WFfree freeIdentity holeSum; decide) (by decide) (by decide)).1
  · exact (delete_spec_corrected c7q 0 c8q
      (by unfold WFfree freeIdentity holeSum; decide) (by decide) (by decide)).2.2.1


/-! ## Claim C9: serialization round-trip -/

/-- C9: serialization round-trip. -/
theorem serialization_roundtrip :
    (∀ p buf, pageLegal p → SlottedPage.serialize p = .ok buf →
      SlottedPage.deserialize buf p.page_size = some { p with data := buf } ∧
      ∀ i : Nat, SlottedPage.read_key_value { p with data := buf } i =
        SlottedPage.read_key_value p i) ∧
    (∀ h : Header, headerLegal h → h.magic_number ≠ 0 →
      Header.deserialize (Header.serialize h) = .ok h) := by
  constructor
  · intro p buf hL hser
    have hok := serialize_ok p hL
    rw [hser] at hok
    have hbuf := Except.ok.inj hok
    exact ⟨deserialize_serialize p hL buf hbuf,
      fun i => roundtrip_read_key_value p hL buf hbuf i⟩
  · intro h hL hm
    exact header_roundtrip h hL hm

/-- C9 witness. -/
theorem serialization_roundtrip_witness :
    pageLegal c7q ∧ SlottedPage.serialize c7q = .ok c9buf ∧
    SlottedPage.deserialize c9buf c7q.page_size = some { c7q with data := c9buf } ∧
    SlottedPage.read_key_value { c7q with data := c9buf } 0 =
      SlottedPage.read_key_value c7q 0 ∧
    Header.deserialize (Header.serialize (Header.new 1 0 64 0 1)) =
      .ok (Header.new 1 0 64 0 1) := by
  have hpl : pageLegal c7q := by
    unfold pageLegal
    decide
  refine ⟨hpl, by decide,
    (serialization_roundtrip.1 c7q c9buf hpl (by decide)).1,
    (serialization_roundtrip.1 c7q c9buf hpl (by decide)).2 0,
    serialization_roundtrip.2 (Header.new 1 0 64 0 1)
      (by unfold headerLegal; decide) (by decide)⟩


/-! ## Claim C1: search after distinct-key inserts -/

/-- C1: four inserts with pairwise distinct keys 1, 2, 3, 4 on a freshly
created 64-byte-page tree (values of 8, 4, 11 and 7 bytes).  The first three
inserts return `Ok` and `search 3` then answers its value; the fourth insert
fails with `PageOverflow` (its leaf split succeeds and is persisted — the
left half, emptied of key 3, is written to disk — but re-inserting the
promoted separator key 3 into the freshly split internal parent overflows
again and the error propagates).  Afterwards the same handle answers
`search 3` with `KeyNotFound` while keys 1 and 2 are still found: a key whose
insert returned `Ok` is lost even though all keys are distinct.  The last
conjunct shows the transactional model's `insert` failing identically on the
same state, so the failure is not an artifact of the `&mut` threading. -/
theorem failed_insert_loses_previously_inserted_key :
    c1Run.2 = [.ok (), .ok (), .ok (), .error (.pageOverflow 7)] ∧
    c1Mid.search 10 3 = .ok (List.replicate 11 3) ∧
    c1Run.1.search 10 3 = .error (.keyNotFound "3") ∧
    c1Run.1.search 10 1 = .ok (List.replicate 8 1) ∧
    c1Run.1.search 10 2 = .ok (List.replicate 4 2) ∧
    c1Mid.insert 10 4 (List.replicate 7 4) = .error (.pageOverflow 7) := by
  refine ⟨by decide, by decide, by decide, by decide, by decide, by decide⟩

end CloaksDB
